import Mathlib

/-!
Verification of storj-thirdparty/metasearch (internal/metasearch package).

The Go source is embedded shallowly:
* JSON values (Go `interface\x7b\x7d` trees produced by `encoding/json`) become
  the inductive type `Jval`; `json.Marshal` becomes the canonical renderer
  `render`, and `json.Unmarshal` becomes the parser `parseVal`/`unmarshal`.
  Numbers are modelled as integers (the claims never involve fractional
  values), and the renderer does not HTML-escape strings; both are
  simplifications of `encoding/json` that preserve the marshal/unmarshal
  round-trip this development relies on.
* Go maps become association lists; map assignment `m[k] = v` becomes
  `mapInsert`, which overwrites an existing binding or appends a fresh one.
  Iteration order of a Go map is unspecified; the association list fixes one
  order, which is irrelevant to the claims (they are stated up to JSON
  equality of objects).
-/

/-- JSON value tree, as produced by Go's `json.Unmarshal` into
`interface\x7b\x7d` (`nil`, `bool`, `float64`, `string`, `[]interface\x7b\x7d`,
`map[string]interface\x7b\x7d`).  Numbers are modelled as integers. -/
inductive Jval where
  | null : Jval
  | bool (b : Bool) : Jval
  | num (n : Int) : Jval
  | str (s : String) : Jval
  | arr (elems : List Jval) : Jval
  | obj (entries : List (String × Jval)) : Jval
deriving Repr

/-- Decimal digits of a natural number, most significant first; fuelled so the
definition is structural and reduces by `rfl`/`decide`. -/
def natCharsAux : Nat → Nat → List Char
  | 0, _ => []
  | fuel + 1, n =>
    if n < 10 then [Nat.digitChar n]
    else natCharsAux fuel (n / 10) ++ [Nat.digitChar (n % 10)]

/-- Decimal representation of a natural number, as emitted by Go's
`strconv`/`encoding/json` for integral values. -/
def natChars (n : Nat) : List Char := natCharsAux (n + 1) n

/-- Decimal representation of an integer (`-` sign for negatives). -/
def intChars (n : Int) : List Char :=
  if n < 0 then '-' :: natChars n.natAbs else natChars n.toNat

/-- JSON string-content escaping: quote and backslash get a backslash. -/
def escapeChars : List Char → List Char
  | [] => []
  | c :: cs =>
    if c = '"' ∨ c = '\\' then '\\' :: c :: escapeChars cs
    else c :: escapeChars cs

/-- Rendering of a JSON string literal (quotes plus escaped content). -/
def renderStr (s : List Char) : List Char := '"' :: escapeChars s ++ ['"']

mutual

/-- `json.Marshal` of a JSON value (canonical rendering, no whitespace). -/
def render : Jval → List Char
  | .null => 'n' :: ['u', 'l', 'l']
  | .bool true => 't' :: ['r', 'u', 'e']
  | .bool false => 'f' :: ['a', 'l', 's', 'e']
  | .num n => intChars n
  | .str s => renderStr s.data
  | .arr es => '[' :: renderArr es ++ [']']
  | .obj kvs => '{' :: renderObj kvs ++ ['}']

/-- Comma-separated rendering of array elements. -/
def renderArr : List Jval → List Char
  | [] => []
  | [v] => render v
  | v :: v' :: vs => render v ++ ',' :: renderArr (v' :: vs)

/-- Comma-separated rendering of object members. -/
def renderObj : List (String × Jval) → List Char
  | [] => []
  | [(k, v)] => renderStr k.data ++ ':' :: render v
  | (k, v) :: m :: kvs => renderStr k.data ++ ':' :: render v ++ ',' :: renderObj (m :: kvs)

end

/-- Numeric value of one decimal digit character. -/
def charDigit (c : Char) : Nat := c.toNat - 48

/-- Left fold turning a digit run into its numeric value. -/
def digitsVal : Nat → List Char → Nat
  | a, [] => a
  | a, c :: cs => digitsVal (a * 10 + charDigit c) cs

/-- Parse a nonempty run of decimal digits; returns its value and the rest. -/
def parseNum (cs : List Char) : Option (Nat × List Char) :=
  let ds := cs.takeWhile Char.isDigit
  if ds.isEmpty then none
  else some (digitsVal 0 ds, cs.dropWhile Char.isDigit)

/-- Expect a fixed literal character sequence (used for null/true/false). -/
def parseLit : List Char → List Char → Option (List Char)
  | [], cs => some cs
  | _ :: _, [] => none
  | l :: ls, c :: cs => if c = l then parseLit ls cs else none

mutual

/-- Parse the content of a JSON string literal after the opening quote, up to
and including the closing quote; understands backslash escapes. -/
def parseStr : List Char → Option (List Char × List Char)
  | [] => none
  | c :: cs =>
    if c = '\\' then parseStrEsc cs
    else if c = '"' then some ([], cs)
    else (parseStr cs).map (fun p => (c :: p.1, p.2))

/-- Continuation of `parseStr` directly after a backslash. -/
def parseStrEsc : List Char → Option (List Char × List Char)
  | [] => none
  | c2 :: cs2 => (parseStr cs2).map (fun p => (c2 :: p.1, p.2))

end

mutual

/-- Fuelled parser for one JSON value (model of `json.Unmarshal`; no
whitespace, integer numbers only). -/
def parseVal : Nat → List Char → Option (Jval × List Char)
  | 0, _ => none
  | _ + 1, [] => none
  | fuel + 1, c :: cs =>
    if c.isDigit then
      (parseNum (c :: cs)).map (fun p => (.num (p.1 : Int), p.2))
    else if c = '-' then
      (parseNum cs).map (fun p => (.num (-(p.1 : Int)), p.2))
    else if c = '"' then
      (parseStr cs).map (fun p => (.str (String.mk p.1), p.2))
    else if c = '[' then
      if cs.head? = some ']' then some (.arr [], cs.tail)
      else (parseArrElems fuel cs).map (fun p => (.arr p.1, p.2))
    else if c = '{' then
      if cs.head? = some '}' then some (.obj [], cs.tail)
      else (parseObjMembers fuel cs).map (fun p => (.obj p.1, p.2))
    else if c = 'n' then (parseLit ['u', 'l', 'l'] cs).map (fun rest => (.null, rest))
    else if c = 't' then (parseLit ['r', 'u', 'e'] cs).map (fun rest => (.bool true, rest))
    else if c = 'f' then (parseLit ['a', 'l', 's', 'e'] cs).map (fun rest => (.bool false, rest))
    else none

/-- Fuelled parser for a nonempty comma-separated element list, consuming the
closing bracket. -/
def parseArrElems : Nat → List Char → Option (List Jval × List Char)
  | 0, _ => none
  | fuel + 1, cs =>
    match parseVal fuel cs with
    | none => none
    | some (v, rest) =>
      if rest.head? = some ',' then
        (parseArrElems fuel rest.tail).map (fun p => (v :: p.1, p.2))
      else if rest.head? = some ']' then some ([v], rest.tail)
      else none

/-- Fuelled parser for a nonempty comma-separated member list, consuming the
closing brace. -/
def parseObjMembers : Nat → List Char → Option (List (String × Jval) × List Char)
  | 0, _ => none
  | fuel + 1, cs =>
    if cs.head? = some '"' then
      match parseStr cs.tail with
      | none => none
      | some (k, rest) => parseMemberRest fuel (String.mk k) rest
    else none

/-- Continuation of `parseObjMembers` after the member key. -/
def parseMemberRest : Nat → String → List Char → Option (List (String × Jval) × List Char)
  | 0, _, _ => none
  | fuel + 1, k, rest =>
    if rest.head? = some ':' then
      match parseVal fuel rest.tail with
      | none => none
      | some (v, rest3) =>
        if rest3.head? = some ',' then
          (parseObjMembers fuel rest3.tail).map (fun p => ((k, v) :: p.1, p.2))
        else if rest3.head? = some '}' then some ([(k, v)], rest3.tail)
        else none
    else none

end

/-- `json.Unmarshal` of a whole document: parse one value consuming the entire
input. -/
def unmarshal (s : String) : Option Jval :=
  match parseVal (s.data.length + 1) s.data with
  | some (v, []) => some v
  | _ => none

lemma string_mk_data (s : String) : String.mk s.data = s := by
  cases s
  rfl

lemma digit_char_isDigit {d : Nat} (h : d < 10) : (Nat.digitChar d).isDigit = true := by
  interval_cases d <;> decide

lemma digit_char_val {d : Nat} (h : d < 10) : charDigit (Nat.digitChar d) = d := by
  interval_cases d <;> decide

lemma natCharsAux_irrel : ∀ f1 f2 n, n < f1 → n < f2 →
    natCharsAux f1 n = natCharsAux f2 n := by
  intro f1
  induction f1 with
  | zero => intro f2 n h1 _; omega
  | succ f ih =>
    intro f2 n h1 h2
    match f2, h2 with
    | f2 + 1, h2 =>
      show natCharsAux (f + 1) n = natCharsAux (f2 + 1) n
      simp only [natCharsAux]
      by_cases h10 : n < 10
      · simp [h10]
      · have hd : n / 10 < n := Nat.div_lt_self (by omega) (by omega)
        simp only [h10, if_false]
        rw [ih (f2) (n / 10) (by omega) (by omega)]

lemma natChars_unfold (n : Nat) : natChars n =
    if n < 10 then [Nat.digitChar n]
    else natChars (n / 10) ++ [Nat.digitChar (n % 10)] := by
  show natCharsAux (n + 1) n = _
  by_cases h10 : n < 10
  · simp [natCharsAux, h10]
  · have hd : n / 10 < n := Nat.div_lt_self (by omega) (by omega)
    simp only [natCharsAux, h10, if_false]
    rw [natCharsAux_irrel n (n / 10 + 1) (n / 10) (by omega) (by omega)]
    rfl

lemma natChars_ne_nil (n : Nat) : natChars n ≠ [] := by
  rw [natChars_unfold]
  by_cases h10 : n < 10 <;> simp [h10]

lemma natChars_all_digits (n : Nat) : ∀ c ∈ natChars n, c.isDigit = true := by
  induction n using Nat.strong_induction_on with
  | _ n ih =>
    rw [natChars_unfold]
    by_cases h10 : n < 10
    · simp only [h10, if_true, List.mem_singleton]
      intro c hc
      subst hc
      exact digit_char_isDigit h10
    · have hd : n / 10 < n := Nat.div_lt_self (by omega) (by omega)
      simp only [h10, if_false, List.mem_append, List.mem_singleton]
      intro c hc
      rcases hc with hc | hc
      · exact ih (n / 10) hd c hc
      · subst hc
        exact digit_char_isDigit (Nat.mod_lt _ (by omega))

lemma digitsVal_cons (a : Nat) (c : Char) (cs : List Char) :
    digitsVal a (c :: cs) = digitsVal (a * 10 + charDigit c) cs := rfl

lemma digitsVal_nil_eq (a : Nat) : digitsVal a [] = a := rfl

lemma digitsVal_append (a : Nat) (l1 l2 : List Char) :
    digitsVal a (l1 ++ l2) = digitsVal (digitsVal a l1) l2 := by
  induction l1 generalizing a with
  | nil => rfl
  | cons c cs ih =>
    rw [List.cons_append, digitsVal_cons, digitsVal_cons]
    exact ih _

lemma digitsVal_natChars (n : Nat) : ∀ a,
    digitsVal a (natChars n) = a * 10 ^ (natChars n).length + n := by
  induction n using Nat.strong_induction_on with
  | _ n ih =>
    intro a
    rw [natChars_unfold]
    by_cases h10 : n < 10
    · simp only [h10, if_true, digitsVal_cons, digitsVal_nil_eq, digit_char_val h10,
        List.length_singleton]
      ring
    · have hd : n / 10 < n := Nat.div_lt_self (by omega) (by omega)
      simp only [h10, if_false]
      rw [digitsVal_append, ih (n / 10) hd a, digitsVal_cons,
        digit_char_val (Nat.mod_lt n (show 0 < 10 by omega)), digitsVal_nil_eq,
        List.length_append, List.length_singleton, pow_succ]
      have := Nat.div_add_mod n 10
      ring_nf
      omega

/-- The continuation after a rendered number must not start with a digit (in
every context where the renderer emits a number it is followed by a comma, a
closing bracket, or nothing). -/
def headNotDigit : List Char → Prop
  | [] => True
  | c :: _ => c.isDigit = false

lemma takeWhile_append_all (p : Char → Bool) (l r : List Char)
    (hl : ∀ c ∈ l, p c = true)
    (hr : match r with | [] => True | c :: _ => p c = false) :
    (l ++ r).takeWhile p = l ∧ (l ++ r).dropWhile p = r := by
  induction l with
  | nil =>
    simp only [List.nil_append]
    match r, hr with
    | [], _ => exact ⟨rfl, rfl⟩
    | c :: cs, hr =>
      constructor
      · rw [List.takeWhile_cons, hr]
        simp
      · rw [List.dropWhile_cons, hr]
        simp
  | cons c cs ih =>
    have hc : p c = true := hl c (by simp)
    have ih' := ih (fun x hx => hl x (by simp [hx]))
    constructor
    · rw [List.cons_append, List.takeWhile_cons, hc]
      simp only [if_true]
      simp only [ih'.1]
    · rw [List.cons_append, List.dropWhile_cons, hc]
      simp only [if_true]
      simp only [ih'.2]

lemma parseNum_natChars (n : Nat) (rest : List Char) (hr : headNotDigit rest) :
    parseNum (natChars n ++ rest) = some (n, rest) := by
  have h := takeWhile_append_all Char.isDigit (natChars n) rest (natChars_all_digits n)
    (by cases rest with | nil => trivial | cons c cs => exact hr)
  unfold parseNum
  rw [h.1, h.2]
  have hne : (natChars n).isEmpty = false := by
    cases hnc : natChars n with
    | nil => exact absurd hnc (natChars_ne_nil n)
    | cons c cs => rfl
  simp only [hne, Bool.false_eq_true, if_false]
  have hv := digitsVal_natChars n 0
  rw [hv]
  simp

lemma parseStr_quote (rest : List Char) : parseStr ('"' :: rest) = some ([], rest) := rfl

lemma parseStr_esc (c2 : Char) (cs2 : List Char) :
    parseStr ('\\' :: c2 :: cs2) = (parseStr cs2).map (fun p => (c2 :: p.1, p.2)) := rfl

lemma parseStr_other (c : Char) (cs : List Char) (h1 : c ≠ '\\') (h2 : c ≠ '"') :
    parseStr (c :: cs) = (parseStr cs).map (fun p => (c :: p.1, p.2)) := by
  show (if c = '\\' then parseStrEsc cs
    else if c = '"' then some ([], cs)
    else (parseStr cs).map (fun p => (c :: p.1, p.2))) = _
  rw [if_neg h1, if_neg h2]

lemma parseStr_escape (s rest : List Char) :
    parseStr (escapeChars s ++ '"' :: rest) = some (s, rest) := by
  induction s with
  | nil => exact parseStr_quote rest
  | cons c cs ih =>
    by_cases hc : c = '"' ∨ c = '\\'
    · show parseStr ((if c = '"' ∨ c = '\\' then '\\' :: c :: escapeChars cs
        else c :: escapeChars cs) ++ '"' :: rest) = _
      rw [if_pos hc]
      show parseStr ('\\' :: c :: (escapeChars cs ++ '"' :: rest)) = _
      rw [parseStr_esc, ih]
      rfl
    · show parseStr ((if c = '"' ∨ c = '\\' then '\\' :: c :: escapeChars cs
        else c :: escapeChars cs) ++ '"' :: rest) = _
      rw [if_neg hc]
      push_neg at hc
      show parseStr (c :: (escapeChars cs ++ '"' :: rest)) = _
      rw [parseStr_other c _ hc.2 hc.1, ih]
      rfl

mutual

/-- Fuel needed by `parseVal` to parse a rendered value. -/
def jsize : Jval → Nat
  | .null => 1
  | .bool _ => 1
  | .num _ => 1
  | .str _ => 1
  | .arr es => 1 + jsizeArr es
  | .obj kvs => 1 + jsizeObj kvs

/-- Fuel needed by `parseArrElems` for a rendered element list. -/
def jsizeArr : List Jval → Nat
  | [] => 0
  | v :: vs => 1 + jsize v + jsizeArr vs

/-- Fuel needed by `parseObjMembers`/`parseMemberRest` for rendered members. -/
def jsizeObj : List (String × Jval) → Nat
  | [] => 0
  | (_, v) :: kvs => 2 + jsize v + jsizeObj kvs

end

lemma jsize_arr_eq (es : List Jval) : jsize (.arr es) = 1 + jsizeArr es := rfl

lemma jsize_obj_eq (kvs : List (String × Jval)) : jsize (.obj kvs) = 1 + jsizeObj kvs := rfl

lemma jsizeArr_cons_eq (v : Jval) (vs : List Jval) :
    jsizeArr (v :: vs) = 1 + jsize v + jsizeArr vs := rfl

lemma jsizeObj_cons_eq (k : String) (v : Jval) (kvs : List (String × Jval)) :
    jsizeObj ((k, v) :: kvs) = 2 + jsize v + jsizeObj kvs := rfl

lemma jsize_pos (v : Jval) : 1 ≤ jsize v := by
  cases v with
  | null => exact le_refl 1
  | bool b => exact le_refl 1
  | num n => exact le_refl 1
  | str s => exact le_refl 1
  | arr es => rw [jsize_arr_eq]; omega
  | obj kvs => rw [jsize_obj_eq]; omega

lemma parseVal_cons (fuel : Nat) (c : Char) (cs : List Char) :
    parseVal (fuel + 1) (c :: cs) =
      (if c.isDigit then
        (parseNum (c :: cs)).map (fun p => (.num (p.1 : Int), p.2))
      else if c = '-' then
        (parseNum cs).map (fun p => (.num (-(p.1 : Int)), p.2))
      else if c = '"' then
        (parseStr cs).map (fun p => (.str (String.mk p.1), p.2))
      else if c = '[' then
        if cs.head? = some ']' then some (.arr [], cs.tail)
        else (parseArrElems fuel cs).map (fun p => (.arr p.1, p.2))
      else if c = '{' then
        if cs.head? = some '}' then some (.obj [], cs.tail)
        else (parseObjMembers fuel cs).map (fun p => (.obj p.1, p.2))
      else if c = 'n' then (parseLit ['u', 'l', 'l'] cs).map (fun rest => (.null, rest))
      else if c = 't' then (parseLit ['r', 'u', 'e'] cs).map (fun rest => (.bool true, rest))
      else if c = 'f' then (parseLit ['a', 'l', 's', 'e'] cs).map (fun rest => (.bool false, rest))
      else none) := rfl

lemma parseArrElems_succ (fuel : Nat) (cs : List Char) :
    parseArrElems (fuel + 1) cs =
      match parseVal fuel cs with
      | none => none
      | some (v, rest) =>
        if rest.head? = some ',' then
          (parseArrElems fuel rest.tail).map (fun p => (v :: p.1, p.2))
        else if rest.head? = some ']' then some ([v], rest.tail)
        else none := rfl

lemma parseObjMembers_succ (fuel : Nat) (cs : List Char) :
    parseObjMembers (fuel + 1) cs =
      if cs.head? = some '"' then
        match parseStr cs.tail with
        | none => none
        | some (k, rest) => parseMemberRest fuel (String.mk k) rest
      else none := rfl

lemma parseMemberRest_succ (fuel : Nat) (k : String) (rest : List Char) :
    parseMemberRest (fuel + 1) k rest =
      (if rest.head? = some ':' then
        match parseVal fuel rest.tail with
        | none => none
        | some (v, rest3) =>
          if rest3.head? = some ',' then
            (parseObjMembers fuel rest3.tail).map (fun p => ((k, v) :: p.1, p.2))
          else if rest3.head? = some '}' then some ([(k, v)], rest3.tail)
          else none
      else none) := rfl

lemma parseLit_self (lit : List Char) : ∀ cs, parseLit lit (lit ++ cs) = some cs := by
  induction lit with
  | nil => intro cs; rfl
  | cons l ls ih =>
    intro cs
    show (if l = l then parseLit ls (ls ++ cs) else none) = some cs
    rw [if_pos rfl]
    exact ih cs

lemma natChars_shape (m : Nat) : ∃ c cs, natChars m = c :: cs ∧ c.isDigit = true := by
  cases hnc : natChars m with
  | nil => exact absurd hnc (natChars_ne_nil m)
  | cons c cs =>
    refine ⟨c, cs, rfl, ?_⟩
    exact natChars_all_digits m c (by rw [hnc]; simp)

lemma render_shape (v : Jval) :
    ∃ c cs, render v = c :: cs ∧ c ≠ ']' ∧ c ≠ '}' := by
  cases v with
  | null => exact ⟨'n', _, rfl, by decide, by decide⟩
  | bool b => cases b with
    | true => exact ⟨'t', _, rfl, by decide, by decide⟩
    | false => exact ⟨'f', _, rfl, by decide, by decide⟩
  | num n =>
    show ∃ c cs, intChars n = c :: cs ∧ _
    unfold intChars
    by_cases hn : n < 0
    · exact ⟨'-', _, by rw [if_pos hn], by decide, by decide⟩
    · obtain ⟨c, cs, hc, hd⟩ := natChars_shape n.toNat
      refine ⟨c, cs, by rw [if_neg hn]; exact hc, ?_, ?_⟩
      · intro h; subst h; exact absurd hd (by decide)
      · intro h; subst h; exact absurd hd (by decide)
  | str s => exact ⟨'"', _, rfl, by decide, by decide⟩
  | arr es => exact ⟨'[', _, rfl, by decide, by decide⟩
  | obj kvs => exact ⟨'{', _, rfl, by decide, by decide⟩

lemma renderArr_cons_shape (v : Jval) (vs : List Jval) :
    ∃ t, renderArr (v :: vs) = render v ++ t := by
  cases vs with
  | nil => exact ⟨[], by rw [List.append_nil]; rfl⟩
  | cons v' vs' => exact ⟨',' :: renderArr (v' :: vs'), rfl⟩

lemma renderObj_cons_shape (k : String) (v : Jval) (kvs : List (String × Jval)) :
    ∃ t, renderObj ((k, v) :: kvs) = renderStr k.data ++ t := by
  cases kvs with
  | nil => exact ⟨':' :: render v, rfl⟩
  | cons m kvs' =>
    refine ⟨':' :: render v ++ ',' :: renderObj (m :: kvs'), ?_⟩
    show renderStr k.data ++ ':' :: render v ++ ',' :: renderObj (m :: kvs') = _
    rw [List.append_assoc]

lemma parseArrElems_succ_eq (fuel : Nat) (cs : List Char) (v : Jval) (rest : List Char)
    (h : parseVal fuel cs = some (v, rest)) :
    parseArrElems (fuel + 1) cs =
      if rest.head? = some ',' then
        (parseArrElems fuel rest.tail).map (fun p => (v :: p.1, p.2))
      else if rest.head? = some ']' then some ([v], rest.tail)
      else none := by
  rw [parseArrElems_succ, h]

lemma parseObjMembers_quote (fuel : Nat) (cs2 : List Char) :
    parseObjMembers (fuel + 1) ('"' :: cs2) =
      match parseStr cs2 with
      | none => none
      | some (k, rest) => parseMemberRest fuel (String.mk k) rest := by
  rw [parseObjMembers_succ]
  rfl

lemma parseObjMembers_quote_eq (fuel : Nat) (cs2 : List Char) (k : List Char)
    (rest : List Char) (h : parseStr cs2 = some (k, rest)) :
    parseObjMembers (fuel + 1) ('"' :: cs2) = parseMemberRest fuel (String.mk k) rest := by
  rw [parseObjMembers_quote, h]

lemma parseMemberRest_colon_eq (fuel : Nat) (k : String) (rest2 : List Char)
    (v : Jval) (rest3 : List Char) (h : parseVal fuel rest2 = some (v, rest3)) :
    parseMemberRest (fuel + 1) k (':' :: rest2) =
      (if rest3.head? = some ',' then
        (parseObjMembers fuel rest3.tail).map (fun p => ((k, v) :: p.1, p.2))
      else if rest3.head? = some '}' then some ([(k, v)], rest3.tail)
      else none) := by
  rw [parseMemberRest_succ, if_pos (show (':' :: rest2).head? = some ':' from rfl)]
  show (match parseVal fuel rest2 with
    | none => none
    | some (v, rest3) =>
      if rest3.head? = some ',' then
        (parseObjMembers fuel rest3.tail).map
          (fun p : List (String × Jval) × List Char => ((k, v) :: p.1, p.2))
      else if rest3.head? = some '}' then some ([(k, v)], rest3.tail)
      else none) = _
  rw [h]

lemma hnd (c : Char) (cs : List Char) (h : c.isDigit = false) : headNotDigit (c :: cs) := h

lemma parseLit_null (cs : List Char) :
    parseLit ['u', 'l', 'l'] ('u' :: 'l' :: 'l' :: cs) = some cs := parseLit_self _ cs

lemma parseLit_true (cs : List Char) :
    parseLit ['r', 'u', 'e'] ('r' :: 'u' :: 'e' :: cs) = some cs := parseLit_self _ cs

lemma parseLit_false (cs : List Char) :
    parseLit ['a', 'l', 's', 'e'] ('a' :: 'l' :: 's' :: 'e' :: cs) = some cs :=
  parseLit_self _ cs

lemma head_ne (c c' : Char) (cs : List Char) (h : c ≠ c') :
    ¬((c :: cs).head? = some c') := by
  simp only [List.head?_cons, Option.some.injEq]
  exact h

lemma parseArrElems_step_comma (fuel : Nat) (cs : List Char) (v : Jval) (r2 : List Char)
    (h : parseVal fuel cs = some (v, ',' :: r2)) :
    parseArrElems (fuel + 1) cs =
      (parseArrElems fuel r2).map (fun p => (v :: p.1, p.2)) := by
  rw [parseArrElems_succ_eq fuel cs v (',' :: r2) h,
    if_pos (show (',' :: r2).head? = some ',' from rfl)]
  rfl

lemma parseArrElems_step_close (fuel : Nat) (cs : List Char) (v : Jval) (r2 : List Char)
    (h : parseVal fuel cs = some (v, ']' :: r2)) :
    parseArrElems (fuel + 1) cs = some ([v], r2) := by
  rw [parseArrElems_succ_eq fuel cs v (']' :: r2) h,
    if_neg (head_ne ']' ',' r2 (by decide)),
    if_pos (show (']' :: r2).head? = some ']' from rfl)]
  rfl

lemma parseMemberRest_step_comma (fuel : Nat) (k : String) (r2 : List Char) (v : Jval)
    (r3 : List Char) (h : parseVal fuel r2 = some (v, ',' :: r3)) :
    parseMemberRest (fuel + 1) k (':' :: r2) =
      (parseObjMembers fuel r3).map (fun p => ((k, v) :: p.1, p.2)) := by
  rw [parseMemberRest_colon_eq fuel k r2 v (',' :: r3) h,
    if_pos (show (',' :: r3).head? = some ',' from rfl)]
  rfl

lemma parseMemberRest_step_close (fuel : Nat) (k : String) (r2 : List Char) (v : Jval)
    (r3 : List Char) (h : parseVal fuel r2 = some (v, '}' :: r3)) :
    parseMemberRest (fuel + 1) k (':' :: r2) = some ([(k, v)], r3) := by
  rw [parseMemberRest_colon_eq fuel k r2 v ('}' :: r3) h,
    if_neg (head_ne '}' ',' r3 (by decide)),
    if_pos (show ('}' :: r3).head? = some '}' from rfl)]
  rfl

/-- Parsing is a left inverse of rendering: the fuelled parser consumes exactly
the rendered value and returns the remaining input, provided the fuel covers
the value's size and (for numbers) the remaining input does not begin with a
digit. -/
lemma json_rt_all : ∀ N : Nat,
    (∀ v : Jval, jsize v ≤ N → ∀ fuel rest, jsize v ≤ fuel → headNotDigit rest →
      parseVal fuel (render v ++ rest) = some (v, rest)) ∧
    (∀ es : List Jval, es ≠ [] → jsizeArr es ≤ N → ∀ fuel rest, jsizeArr es ≤ fuel →
      parseArrElems fuel (renderArr es ++ ']' :: rest) = some (es, rest)) ∧
    (∀ kvs : List (String × Jval), kvs ≠ [] → jsizeObj kvs ≤ N → ∀ fuel rest,
      jsizeObj kvs ≤ fuel →
      parseObjMembers fuel (renderObj kvs ++ '}' :: rest) = some (kvs, rest)) := by
  intro N
  induction N using Nat.strong_induction_on with
  | _ N IH =>
  have hV : ∀ v : Jval, jsize v < N → ∀ fuel rest, jsize v ≤ fuel → headNotDigit rest →
      parseVal fuel (render v ++ rest) = some (v, rest) :=
    fun v hv => (IH (jsize v) hv).1 v le_rfl
  have hA : ∀ es : List Jval, es ≠ [] → jsizeArr es < N → ∀ fuel rest, jsizeArr es ≤ fuel →
      parseArrElems fuel (renderArr es ++ ']' :: rest) = some (es, rest) :=
    fun es hne hv => (IH (jsizeArr es) hv).2.1 es hne le_rfl
  have hO : ∀ kvs : List (String × Jval), kvs ≠ [] → jsizeObj kvs < N → ∀ fuel rest,
      jsizeObj kvs ≤ fuel →
      parseObjMembers fuel (renderObj kvs ++ '}' :: rest) = some (kvs, rest) :=
    fun kvs hne hv => (IH (jsizeObj kvs) hv).2.2 kvs hne le_rfl
  refine ⟨?_, ?_, ?_⟩
  · -- single value
    intro v hvN fuel rest hfuel hrest
    obtain ⟨f, rfl⟩ : ∃ f, fuel = f + 1 := ⟨fuel - 1, by have := jsize_pos v; omega⟩
    cases v with
    | null =>
      show parseVal (f + 1) ('n' :: 'u' :: 'l' :: 'l' :: rest) = some (.null, rest)
      rw [parseVal_cons, if_neg (by decide), if_neg (by decide), if_neg (by decide),
        if_neg (by decide), if_neg (by decide), if_pos rfl, parseLit_null]
      rfl
    | bool b =>
      cases b with
      | true =>
        show parseVal (f + 1) ('t' :: 'r' :: 'u' :: 'e' :: rest) = some (.bool true, rest)
        rw [parseVal_cons, if_neg (by decide), if_neg (by decide), if_neg (by decide),
          if_neg (by decide), if_neg (by decide), if_neg (by decide), if_pos rfl,
          parseLit_true]
        rfl
      | false =>
        show parseVal (f + 1) ('f' :: 'a' :: 'l' :: 's' :: 'e' :: rest)
          = some (.bool false, rest)
        rw [parseVal_cons, if_neg (by decide), if_neg (by decide), if_neg (by decide),
          if_neg (by decide), if_neg (by decide), if_neg (by decide), if_neg (by decide),
          if_pos rfl, parseLit_false]
        rfl
    | num n =>
      show parseVal (f + 1) (intChars n ++ rest) = some (.num n, rest)
      by_cases hn : n < 0
      · unfold intChars
        rw [if_pos hn, List.cons_append, parseVal_cons, if_neg (by decide), if_pos rfl,
          parseNum_natChars n.natAbs rest hrest]
        show some (Jval.num (-(n.natAbs : Int)), rest) = some (Jval.num n, rest)
        have habs : ((n.natAbs : Int)) = -n := by omega
        rw [habs, neg_neg]
      · obtain ⟨c, cs0, hc, hd⟩ := natChars_shape n.toNat
        unfold intChars
        rw [if_neg hn, hc, List.cons_append, parseVal_cons, if_pos hd]
        have hback : c :: (cs0 ++ rest) = natChars n.toNat ++ rest := by
          rw [hc, List.cons_append]
        rw [hback, parseNum_natChars n.toNat rest hrest]
        show some (Jval.num ((n.toNat : Int)), rest) = some (Jval.num n, rest)
        have : ((n.toNat : Int)) = n := Int.toNat_of_nonneg (by omega)
        rw [this]
    | str s =>
      show parseVal (f + 1) (('"' :: escapeChars s.data ++ ['"']) ++ rest) = some (.str s, rest)
      rw [List.append_assoc, List.cons_append]
      show parseVal (f + 1) ('"' :: (escapeChars s.data ++ '"' :: rest)) = some (.str s, rest)
      rw [parseVal_cons, if_neg (by decide), if_neg (by decide), if_pos rfl,
        parseStr_escape]
      show some (Jval.str (String.mk s.data), rest) = some (Jval.str s, rest)
      rw [string_mk_data]
    | arr es =>
      cases es with
      | nil =>
        show parseVal (f + 1) ('[' :: ']' :: rest) = some (.arr [], rest)
        rw [parseVal_cons, if_neg (by decide), if_neg (by decide), if_neg (by decide),
          if_pos rfl, if_pos (show (']' :: rest).head? = some ']' from rfl)]
        rfl
      | cons v vs =>
        obtain ⟨c0, cs0, hc0, hne1, hne2⟩ := render_shape v
        obtain ⟨t, ht⟩ := renderArr_cons_shape v vs
        show parseVal (f + 1) (('[' :: renderArr (v :: vs) ++ [']']) ++ rest)
          = some (.arr (v :: vs), rest)
        rw [List.append_assoc, List.cons_append]
        show parseVal (f + 1) ('[' :: (renderArr (v :: vs) ++ ']' :: rest))
          = some (.arr (v :: vs), rest)
        rw [parseVal_cons, if_neg (by decide), if_neg (by decide), if_neg (by decide),
          if_pos rfl]
        have hhead : (renderArr (v :: vs) ++ ']' :: rest).head? = some c0 := by
          rw [ht, hc0]
          rfl
        rw [if_neg (by rw [hhead]; simp only [Option.some.injEq]; exact hne1)]
        have hlt : jsizeArr (v :: vs) < N := by
          rw [jsize_arr_eq] at hvN
          omega
        have hle : jsizeArr (v :: vs) ≤ f := by
          rw [jsize_arr_eq] at hfuel
          omega
        rw [hA (v :: vs) (by simp) hlt f rest hle]
        rfl
    | obj kvs =>
      cases kvs with
      | nil =>
        show parseVal (f + 1) ('{' :: '}' :: rest) = some (.obj [], rest)
        rw [parseVal_cons, if_neg (by decide), if_neg (by decide), if_neg (by decide),
          if_neg (by decide), if_pos rfl, if_pos (show ('}' :: rest).head? = some '}' from rfl)]
        rfl
      | cons m kvs' =>
        obtain ⟨k, v⟩ := m
        obtain ⟨t, ht⟩ := renderObj_cons_shape k v kvs'
        show parseVal (f + 1) (('{' :: renderObj ((k, v) :: kvs') ++ ['}']) ++ rest)
          = some (.obj ((k, v) :: kvs'), rest)
        rw [List.append_assoc, List.cons_append]
        show parseVal (f + 1) ('{' :: (renderObj ((k, v) :: kvs') ++ '}' :: rest))
          = some (.obj ((k, v) :: kvs'), rest)
        rw [parseVal_cons, if_neg (by decide), if_neg (by decide), if_neg (by decide),
          if_neg (by decide), if_pos rfl]
        have hhead : (renderObj ((k, v) :: kvs') ++ '}' :: rest).head? = some '"' := by
          rw [ht]
          rfl
        rw [if_neg (by rw [hhead]; decide)]
        have hlt : jsizeObj ((k, v) :: kvs') < N := by
          rw [jsize_obj_eq] at hvN
          omega
        have hle : jsizeObj ((k, v) :: kvs') ≤ f := by
          rw [jsize_obj_eq] at hfuel
          omega
        rw [hO ((k, v) :: kvs') (by simp) hlt f rest hle]
        rfl
  · -- array elements
    intro es hne hN fuel rest hfuel
    match es, hne with
    | v :: vs, _ =>
    obtain ⟨f, rfl⟩ : ∃ f, fuel = f + 1 :=
      ⟨fuel - 1, by rw [jsizeArr_cons_eq] at hfuel; omega⟩
    cases vs with
    | nil =>
      have h1 : jsize v < N := by
        rw [jsizeArr_cons_eq] at hN
        omega
      have h2 : jsize v ≤ f := by
        rw [jsizeArr_cons_eq] at hfuel
        omega
      have hv1 : parseVal f (renderArr [v] ++ ']' :: rest) = some (v, ']' :: rest) :=
        hV v h1 f (']' :: rest) h2 (hnd ']' rest (by decide))
      rw [parseArrElems_step_close f _ v rest hv1]
    | cons v' vs' =>
      have h1 : jsize v < N := by
        rw [jsizeArr_cons_eq] at hN
        omega
      have h2 : jsize v ≤ f := by
        rw [jsizeArr_cons_eq] at hfuel
        omega
      have hv1 : parseVal f (renderArr (v :: v' :: vs') ++ ']' :: rest)
          = some (v, ',' :: (renderArr (v' :: vs') ++ ']' :: rest)) := by
        have hform : renderArr (v :: v' :: vs') ++ ']' :: rest
            = render v ++ (',' :: (renderArr (v' :: vs') ++ ']' :: rest)) := by
          show (render v ++ ',' :: renderArr (v' :: vs')) ++ ']' :: rest = _
          rw [List.append_assoc]
          rfl
        rw [hform]
        exact hV v h1 f _ h2 (hnd ',' _ (by decide))
      rw [parseArrElems_step_comma f _ v _ hv1]
      have h3 : jsizeArr (v' :: vs') < N := by
        rw [jsizeArr_cons_eq] at hN
        have := jsize_pos v
        omega
      have h4 : jsizeArr (v' :: vs') ≤ f := by
        rw [jsizeArr_cons_eq] at hfuel
        have := jsize_pos v
        omega
      rw [hA (v' :: vs') (by simp) h3 f rest h4]
      rfl
  · -- object members
    intro kvs hne hN fuel rest hfuel
    match kvs, hne with
    | (k, v) :: kvs', _ =>
    obtain ⟨f, rfl⟩ : ∃ f, fuel = f + 1 :=
      ⟨fuel - 1, by rw [jsizeObj_cons_eq] at hfuel; omega⟩
    obtain ⟨g, rfl⟩ : ∃ g, f = g + 1 :=
      ⟨f - 1, by rw [jsizeObj_cons_eq] at hfuel; omega⟩
    have h1 : jsize v < N := by
      rw [jsizeObj_cons_eq] at hN
      omega
    have h2 : jsize v ≤ g := by
      rw [jsizeObj_cons_eq] at hfuel
      omega
    cases kvs' with
    | nil =>
      have hform : renderObj [(k, v)] ++ '}' :: rest
          = '"' :: (escapeChars k.data ++ '"' :: (':' :: (render v ++ '}' :: rest))) := by
        show (renderStr k.data ++ ':' :: render v) ++ '}' :: rest = _
        rw [List.append_assoc]
        show ('"' :: escapeChars k.data ++ ['"']) ++ (':' :: (render v ++ '}' :: rest)) = _
        rw [List.append_assoc, List.cons_append]
        rfl
      rw [hform,
        parseObjMembers_quote_eq (g + 1) _ k.data _ (parseStr_escape k.data _),
        string_mk_data]
      have hv2 : parseVal g (render v ++ '}' :: rest) = some (v, '}' :: rest) :=
        hV v h1 g ('}' :: rest) h2 (hnd '}' rest (by decide))
      rw [parseMemberRest_step_close g k _ v rest hv2]
    | cons m kvs'' =>
      have hform : renderObj ((k, v) :: m :: kvs'') ++ '}' :: rest
          = '"' :: (escapeChars k.data ++ '"' ::
              (':' :: (render v ++ ',' :: (renderObj (m :: kvs'') ++ '}' :: rest)))) := by
        show ((renderStr k.data ++ ':' :: render v) ++ ',' :: renderObj (m :: kvs''))
            ++ '}' :: rest = _
        rw [List.append_assoc, List.append_assoc]
        show ('"' :: escapeChars k.data ++ ['"'])
            ++ ((':' :: render v) ++ ((',' :: renderObj (m :: kvs'')) ++ '}' :: rest)) = _
        rw [List.append_assoc, List.cons_append]
        rfl
      rw [hform,
        parseObjMembers_quote_eq (g + 1) _ k.data _ (parseStr_escape k.data _),
        string_mk_data]
      have hv2 : parseVal g (render v ++ ',' :: (renderObj (m :: kvs'') ++ '}' :: rest))
          = some (v, ',' :: (renderObj (m :: kvs'') ++ '}' :: rest)) :=
        hV v h1 g _ h2 (hnd ',' _ (by decide))
      rw [parseMemberRest_step_comma g k _ v _ hv2]
      have h3 : jsizeObj (m :: kvs'') < N := by
        rw [jsizeObj_cons_eq] at hN
        omega
      have h4 : jsizeObj (m :: kvs'') ≤ g := by
        rw [jsizeObj_cons_eq] at hfuel
        omega
      rw [hO (m :: kvs'') (by simp) h3 g rest h4]
      rfl

lemma jsizeArr_nil_eq : jsizeArr [] = 0 := rfl

lemma jsizeObj_nil_eq : jsizeObj [] = 0 := rfl

lemma jsize_le_renderLen : ∀ N : Nat,
    (∀ v : Jval, jsize v ≤ N → jsize v ≤ (render v).length) ∧
    (∀ es : List Jval, jsizeArr es ≤ N → jsizeArr es ≤ (renderArr es).length + 1) ∧
    (∀ kvs : List (String × Jval), jsizeObj kvs ≤ N →
      jsizeObj kvs ≤ (renderObj kvs).length + 1) := by
  intro N
  induction N using Nat.strong_induction_on with
  | _ N IH =>
  refine ⟨?_, ?_, ?_⟩
  · intro v hvN
    cases v with
    | null => decide
    | bool b => cases b <;> decide
    | num n =>
      show jsize (Jval.num n) ≤ (intChars n).length
      have h1 : jsize (Jval.num n) = 1 := rfl
      rw [h1]
      unfold intChars
      by_cases hn : n < 0
      · rw [if_pos hn]
        simp
      · rw [if_neg hn]
        have := natChars_ne_nil n.toNat
        have := List.length_pos.mpr this
        omega
    | str s =>
      show jsize (Jval.str s) ≤ (('"' :: escapeChars s.data ++ ['"'])).length
      have h1 : jsize (Jval.str s) = 1 := rfl
      rw [h1]
      simp
    | arr es =>
      cases es with
      | nil => decide
      | cons v vs =>
        have hlt : jsizeArr (v :: vs) < N := by
          rw [jsize_arr_eq] at hvN
          omega
        have hIH := (IH (jsizeArr (v :: vs)) hlt).2.1 (v :: vs) le_rfl
        show 1 + jsizeArr (v :: vs) ≤ (('[' :: renderArr (v :: vs) ++ [']'])).length
        simp only [List.length_append, List.length_cons, List.length_singleton]
        omega
    | obj kvs =>
      cases kvs with
      | nil => decide
      | cons m kvs' =>
        have hlt : jsizeObj (m :: kvs') < N := by
          rw [jsize_obj_eq] at hvN
          omega
        have hIH := (IH (jsizeObj (m :: kvs')) hlt).2.2 (m :: kvs') le_rfl
        show 1 + jsizeObj (m :: kvs') ≤ (('{' :: renderObj (m :: kvs') ++ ['}'])).length
        simp only [List.length_append, List.length_cons, List.length_singleton]
        omega
  · intro es hN
    cases es with
    | nil =>
      rw [jsizeArr_nil_eq]
      omega
    | cons v vs =>
      have hv : jsize v < N := by
        rw [jsizeArr_cons_eq] at hN
        have := jsize_pos v
        omega
      have hIHv := (IH (jsize v) hv).1 v le_rfl
      cases vs with
      | nil =>
        rw [jsizeArr_cons_eq, jsizeArr_nil_eq]
        have : renderArr [v] = render v := by
          show renderArr [v] = render v
          rfl
        rw [this]
        omega
      | cons v' vs' =>
        have hvs : jsizeArr (v' :: vs') < N := by
          rw [jsizeArr_cons_eq] at hN
          have := jsize_pos v
          omega
        have hIHvs := (IH (jsizeArr (v' :: vs')) hvs).2.1 (v' :: vs') le_rfl
        rw [jsizeArr_cons_eq]
        show _ ≤ (render v ++ ',' :: renderArr (v' :: vs')).length + 1
        simp only [List.length_append, List.length_cons]
        omega
  · intro kvs hN
    cases kvs with
    | nil =>
      rw [jsizeObj_nil_eq]
      omega
    | cons m kvs' =>
      obtain ⟨k, v⟩ := m
      have hv : jsize v < N := by
        rw [jsizeObj_cons_eq] at hN
        have := jsize_pos v
        omega
      have hIHv := (IH (jsize v) hv).1 v le_rfl
      cases kvs' with
      | nil =>
        rw [jsizeObj_cons_eq, jsizeObj_nil_eq]
        show _ ≤ (renderStr k.data ++ ':' :: render v).length + 1
        simp only [List.length_append, List.length_cons]
        omega
      | cons m' kvs'' =>
        have hvs : jsizeObj (m' :: kvs'') < N := by
          rw [jsizeObj_cons_eq] at hN
          have := jsize_pos v
          omega
        have hIHvs := (IH (jsizeObj (m' :: kvs'')) hvs).2.2 (m' :: kvs'') le_rfl
        rw [jsizeObj_cons_eq]
        show _ ≤ ((renderStr k.data ++ ':' :: render v) ++ ',' :: renderObj (m' :: kvs'')).length + 1
        simp only [List.length_append, List.length_cons]
        omega

/-- The JSON codec round-trip: unmarshalling a marshalled value gives the
value back. -/
theorem unmarshal_render (v : Jval) : unmarshal (String.mk (render v)) = some v := by
  unfold unmarshal
  have hs : (String.mk (render v)).data = render v := rfl
  rw [hs]
  have hb := (jsize_le_renderLen (jsize v)).1 v le_rfl
  have hp := (json_rt_all (jsize v)).1 v le_rfl ((render v).length + 1) []
    (by omega) trivial
  rw [List.append_nil] at hp
  rw [hp]

/-! ## util.go: shallow/deep metadata codec -/

/-- Go map assignment `m[k] = v` on the association-list model: overwrite an
existing binding, otherwise append. -/
def mapInsert {α β : Type} [DecidableEq α] (m : List (α × β)) (k : α) (v : β) :
    List (α × β) :=
  if m.any (fun p => decide (p.1 = k)) then
    m.map (fun p => if p.1 = k then (k, v) else p)
  else m ++ [(k, v)]

/-- The `"json:"` key tag used by the shallow metadata encoding. -/
def jsonTag : String := "json:"

/-- `strings.HasPrefix(k, "json:")`. -/
def startsWithJsonTag (k : String) : Bool :=
  match k.data with
  | 'j' :: 's' :: 'o' :: 'n' :: ':' :: _ => true
  | _ => false

/-- Go `k[5:]` as used under the `strings.HasPrefix(k, "json:")` guard:
drop the five tag bytes. -/
def stripJsonTag (k : String) : String :=
  match k.data with
  | 'j' :: 's' :: 'o' :: 'n' :: ':' :: rest => String.mk rest
  | _ => k

/-- Key emitted by `toShallowMetadata` for one entry: the key itself for
string values, the tagged key otherwise. -/
def shallowKey (k : String) (v : Jval) : String :=
  match v with
  | .str _ => k
  | _ => jsonTag ++ k

/-- Value emitted by `toShallowMetadata` for one entry: the string itself for
string values, the marshalled JSON text otherwise. -/
def shallowVal (v : Jval) : String :=
  match v with
  | .str s => s
  | v => String.mk (render v)

/-- The `for k, v := range meta` loop body of `toShallowMetadata`. -/
def toShallowGo : List (String × Jval) → List (String × String) → List (String × String)
  | [], result => result
  | (k, v) :: rest, result => toShallowGo rest (mapInsert result (shallowKey k v) (shallowVal v))

/-- `toShallowMetadata` of util.go: convert deep JSON metadata into the
shallow string-to-string map (`nil` for empty input is identified with the
empty map). -/
def toShallowMetadata (meta : List (String × Jval)) : List (String × String) :=
  if meta.isEmpty then [] else toShallowGo meta []

/-- The `for k, v := range meta` loop body of `toDeepMetadata`. -/
def toDeepGo : List (String × String) → List (String × Jval) →
    Except String (List (String × Jval))
  | [], result => .ok result
  | (k, v) :: rest, result =>
    if startsWithJsonTag k then
      match unmarshal v with
      | none => .error v
      | some j => toDeepGo rest (mapInsert result (stripJsonTag k) j)
    else toDeepGo rest (mapInsert result k (.str v))

/-- `toDeepMetadata` of util.go: convert shallow string-to-string metadata
back into a deep JSON object, parsing `"json:"`-tagged values. -/
def toDeepMetadata (meta : List (String × String)) :
    Except String (List (String × Jval)) :=
  if meta.isEmpty then .ok [] else toDeepGo meta []

lemma mapInsert_fresh {α β : Type} [DecidableEq α] (m : List (α × β)) (k : α) (v : β)
    (h : ∀ p ∈ m, p.1 ≠ k) : mapInsert m k v = m ++ [(k, v)] := by
  unfold mapInsert
  rw [if_neg]
  intro hany
  rw [List.any_eq_true] at hany
  obtain ⟨p, hp, hdec⟩ := hany
  rw [decide_eq_true_eq] at hdec
  exact h p hp hdec

lemma shallowKey_str (k : String) (s : String) : shallowKey k (.str s) = k := rfl

lemma shallowVal_str (s : String) : shallowVal (.str s) = s := rfl

lemma shallowKey_nonstr (k : String) (v : Jval) (h : ∀ s, v ≠ .str s) :
    shallowKey k v = jsonTag ++ k := by
  cases v with
  | str s => exact absurd rfl (h s)
  | null => rfl
  | bool b => rfl
  | num n => rfl
  | arr es => rfl
  | obj kvs => rfl

lemma shallowVal_nonstr (v : Jval) (h : ∀ s, v ≠ .str s) :
    shallowVal v = String.mk (render v) := by
  cases v with
  | str s => exact absurd rfl (h s)
  | null => rfl
  | bool b => rfl
  | num n => rfl
  | arr es => rfl
  | obj kvs => rfl

lemma startsWithJsonTag_tagged (k : String) : startsWithJsonTag (jsonTag ++ k) = true := rfl

lemma stripJsonTag_tagged (k : String) : stripJsonTag (jsonTag ++ k) = k := by
  show String.mk k.data = k
  exact string_mk_data k

lemma jsonTag_append_inj (k1 k2 : String) (h : jsonTag ++ k1 = jsonTag ++ k2) : k1 = k2 := by
  have hd : (jsonTag ++ k1).data = (jsonTag ++ k2).data := by rw [h]
  have h1 : (jsonTag ++ k1).data = 'j' :: 's' :: 'o' :: 'n' :: ':' :: k1.data := rfl
  have h2 : (jsonTag ++ k2).data = 'j' :: 's' :: 'o' :: 'n' :: ':' :: k2.data := rfl
  rw [h1, h2] at hd
  simp only [List.cons.injEq, true_and] at hd
  rw [← string_mk_data k1, ← string_mk_data k2, hd]

lemma untagged_ne_tagged (k1 k2 : String) (h : startsWithJsonTag k1 = false) :
    k1 ≠ jsonTag ++ k2 := by
  intro heq
  rw [heq, startsWithJsonTag_tagged] at h
  simp at h

/-- Shallow keys of distinct entries are distinct, given distinct original
keys none of which carries the tag. -/
lemma shallowKey_inj (k1 k2 : String) (v1 v2 : Jval)
    (h1 : startsWithJsonTag k1 = false) (h2 : startsWithJsonTag k2 = false)
    (hk : k1 ≠ k2) : shallowKey k1 v1 ≠ shallowKey k2 v2 := by
  by_cases hs1 : ∃ s, v1 = .str s
  · obtain ⟨s1, rfl⟩ := hs1
    rw [shallowKey_str]
    by_cases hs2 : ∃ s, v2 = .str s
    · obtain ⟨s2, rfl⟩ := hs2
      rw [shallowKey_str]
      exact hk
    · rw [shallowKey_nonstr k2 v2 (by intro s hs; exact hs2 ⟨s, hs⟩)]
      exact untagged_ne_tagged k1 k2 h1
  · rw [shallowKey_nonstr k1 v1 (by intro s hs; exact hs1 ⟨s, hs⟩)]
    by_cases hs2 : ∃ s, v2 = .str s
    · obtain ⟨s2, rfl⟩ := hs2
      rw [shallowKey_str]
      exact fun heq => untagged_ne_tagged k2 k1 h2 heq.symm
    · rw [shallowKey_nonstr k2 v2 (by intro s hs; exact hs2 ⟨s, hs⟩)]
      intro heq
      exact hk (jsonTag_append_inj k1 k2 heq)

lemma toDeepGo_cons (k : String) (v : String) (rest : List (String × String))
    (result : List (String × Jval)) :
    toDeepGo ((k, v) :: rest) result =
      if startsWithJsonTag k then
        match unmarshal v with
        | none => .error v
        | some j => toDeepGo rest (mapInsert result (stripJsonTag k) j)
      else toDeepGo rest (mapInsert result k (.str v)) := rfl

lemma toShallowGo_eq : ∀ (x : List (String × Jval)) (acc : List (String × String)),
    (∀ kv ∈ x, ∀ p ∈ acc, p.1 ≠ shallowKey kv.1 kv.2) →
    List.Pairwise (fun a b => shallowKey a.1 a.2 ≠ shallowKey b.1 b.2) x →
    toShallowGo x acc
      = acc ++ x.map (fun kv => (shallowKey kv.1 kv.2, shallowVal kv.2)) := by
  intro x
  induction x with
  | nil =>
    intro acc _ _
    show acc = acc ++ []
    rw [List.append_nil]
  | cons kv rest ih =>
    intro acc hfresh hpw
    obtain ⟨k, v⟩ := kv
    rw [List.pairwise_cons] at hpw
    have hfr : ∀ p ∈ acc, p.1 ≠ shallowKey k v :=
      fun p hp => hfresh (k, v) (by simp) p hp
    show toShallowGo rest (mapInsert acc (shallowKey k v) (shallowVal v)) = _
    rw [mapInsert_fresh acc _ _ hfr]
    have hfresh2 : ∀ kv2 ∈ rest, ∀ p ∈ acc ++ [(shallowKey k v, shallowVal v)],
        p.1 ≠ shallowKey kv2.1 kv2.2 := by
      intro kv2 h2 p hp
      rcases List.mem_append.mp hp with hp | hp
      · exact hfresh kv2 (by simp [h2]) p hp
      · have hpe : p = (shallowKey k v, shallowVal v) := by simpa using hp
        rw [hpe]
        exact hpw.1 kv2 h2
    rw [ih (acc ++ [(shallowKey k v, shallowVal v)]) hfresh2 hpw.2]
    simp

lemma toDeepGo_eq : ∀ (x : List (String × Jval)) (acc : List (String × Jval)),
    (∀ kv ∈ x, startsWithJsonTag kv.1 = false) →
    (∀ kv ∈ x, ∀ p ∈ acc, p.1 ≠ kv.1) →
    List.Pairwise (fun a b => a.1 ≠ b.1) x →
    toDeepGo (x.map (fun kv => (shallowKey kv.1 kv.2, shallowVal kv.2))) acc
      = .ok (acc ++ x) := by
  intro x
  induction x with
  | nil =>
    intro acc _ _ _
    show Except.ok acc = .ok (acc ++ [])
    rw [List.append_nil]
  | cons kv rest ih =>
    intro acc hnp hfresh hpw
    obtain ⟨k, v⟩ := kv
    rw [List.pairwise_cons] at hpw
    rw [List.map_cons]
    have hfr : ∀ p ∈ acc, p.1 ≠ k := fun p hp => hfresh (k, v) (by simp) p hp
    have hfresh2 : ∀ kv2 ∈ rest, ∀ p ∈ acc ++ [(k, v)], p.1 ≠ kv2.1 := by
      intro kv2 h2 p hp
      rcases List.mem_append.mp hp with hp | hp
      · exact hfresh kv2 (by simp [h2]) p hp
      · have hpe : p = (k, v) := by simpa using hp
        rw [hpe]
        exact hpw.1 kv2 h2
    have hnp2 : ∀ kv2 ∈ rest, startsWithJsonTag kv2.1 = false :=
      fun kv2 h2 => hnp kv2 (by simp [h2])
    have hk : startsWithJsonTag k = false := hnp (k, v) (by simp)
    by_cases hs : ∃ s, v = .str s
    · obtain ⟨s, rfl⟩ := hs
      rw [shallowKey_str, shallowVal_str, toDeepGo_cons, if_neg (by rw [hk]; simp),
        mapInsert_fresh acc k (Jval.str s) hfr,
        ih (acc ++ [(k, Jval.str s)]) hnp2 hfresh2 hpw.2]
      simp
    · have hns : ∀ s, v ≠ .str s := fun s hvs => hs ⟨s, hvs⟩
      rw [shallowKey_nonstr k v hns, shallowVal_nonstr v hns, toDeepGo_cons,
        if_pos (startsWithJsonTag_tagged k), unmarshal_render v]
      show toDeepGo _ (mapInsert acc (stripJsonTag (jsonTag ++ k)) v) = _
      rw [stripJsonTag_tagged, mapInsert_fresh acc k v hfr,
        ih (acc ++ [(k, v)]) hnp2 hfresh2 hpw.2]
      simp

/-- C1: for every deep metadata object (association map from string keys to
arbitrary JSON values, with distinct keys as in a Go map) in which no
top-level key starts with the tag `"json:"`, converting to the shallow
string-to-string form with `toShallowMetadata` and back with `toDeepMetadata`
succeeds and yields an object JSON-equal to the original (literally equal in
this model; the Go `nil` map returned for empty input is identified with the
empty map). -/
theorem C1_metadata_roundtrip (x : List (String × Jval))
    (hkeys : (x.map Prod.fst).Nodup)
    (htag : ∀ kv ∈ x, startsWithJsonTag kv.1 = false) :
    toDeepMetadata (toShallowMetadata x) = .ok x := by
  cases x with
  | nil => rfl
  | cons kv0 rest0 =>
    have hpw_keys : List.Pairwise (fun a b : String × Jval => a.1 ≠ b.1) (kv0 :: rest0) :=
      List.pairwise_map.mp hkeys
    have hpw_sh : List.Pairwise
        (fun a b : String × Jval => shallowKey a.1 a.2 ≠ shallowKey b.1 b.2)
        (kv0 :: rest0) :=
      hpw_keys.imp_of_mem (fun ha hb hne =>
        shallowKey_inj _ _ _ _ (htag _ ha) (htag _ hb) hne)
    unfold toShallowMetadata
    rw [if_neg (by simp)]
    rw [toShallowGo_eq (kv0 :: rest0) [] (by simp) hpw_sh, List.nil_append]
    unfold toDeepMetadata
    rw [if_neg (by simp)]
    rw [toDeepGo_eq (kv0 :: rest0) [] htag (by simp) hpw_keys, List.nil_append]

/-- Witness for C1 at a concrete two-entry metadata object with one string
value and one non-string value. -/
theorem C1_metadata_roundtrip_witness :
    toDeepMetadata (toShallowMetadata
        [(("foo" : String), Jval.str ("456")), (("n" : String), Jval.num 2)])
      = .ok [(("foo" : String), Jval.str ("456")), (("n" : String), Jval.num 2)] :=
  C1_metadata_roundtrip
    [(("foo" : String), Jval.str ("456")), (("n" : String), Jval.num 2)]
    (by decide) (by decide)

/-! ## util.go: splitToJSONLeaves -/

mutual

/-- `splitToLeafValues` of util.go: decompose a JSON value into leaf
documents.  The Go version passes a callback that wraps each child leaf in a
one-entry object or one-element array; composing those callbacks gives the
`map` wrappers below, and the emitted order is the traversal order. -/
def splitToLeafValues : Jval → List Jval
  | .obj kvs => splitLeavesObj kvs
  | .arr es => splitLeavesArr es
  | v => [v]

/-- Object part of `splitToLeafValues`: wrap each child leaf as `\x7bk: leaf\x7d`. -/
def splitLeavesObj : List (String × Jval) → List Jval
  | [] => []
  | (k, v) :: rest =>
    (splitToLeafValues v).map (fun l => Jval.obj [(k, l)]) ++ splitLeavesObj rest

/-- Array part of `splitToLeafValues`: wrap each child leaf as `[leaf]`. -/
def splitLeavesArr : List Jval → List Jval
  | [] => []
  | v :: rest =>
    (splitToLeafValues v).map (fun l => Jval.arr [l]) ++ splitLeavesArr rest

end

/-- `splitToJSONLeaves` of util.go: unmarshal the document, split into leaf
values, marshal each leaf. -/
def splitToJSONLeaves (j : String) : Except String (List String) :=
  match unmarshal j with
  | none => .error j
  | some v => .ok ((splitToLeafValues v).map (fun l => String.mk (render l)))

/-- The concrete input of C9. -/
def C9input : String := "\x7b\"a\":\"1\",\"b\":\x7b\"c\":\"2\",\"d\":[1,\x7b\"e\":\"3\"\x7d]\x7d\x7d"

/-- First leaf document of C9. -/
def C9doc1 : String := "\x7b\"a\":\"1\"\x7d"

/-- Second leaf document of C9. -/
def C9doc2 : String := "\x7b\"b\":\x7b\"c\":\"2\"\x7d\x7d"

/-- Third leaf document of C9. -/
def C9doc3 : String := "\x7b\"b\":\x7b\"d\":[1]\x7d\x7d"

/-- Fourth leaf document of C9. -/
def C9doc4 : String := "\x7b\"b\":\x7b\"d\":[\x7b\"e\":\"3\"\x7d]\x7d\x7d"

/-- C9 counterexample: on the claimed input the leaf splitter emits four
leaves, not six. -/
theorem C9_leaf_count_counterexample :
    ∃ L, splitToJSONLeaves C9input = .ok L ∧ L.length = 4 ∧ L.length ≠ 6 :=
  ⟨[C9doc1, C9doc2, C9doc3, C9doc4], rfl, by decide, by decide⟩

/-- C9 (amended): applied to the input
`\x7b"a":"1","b":\x7b"c":"2","d":[1,\x7b"e":"3"\x7d]\x7d\x7d`, the leaf
splitter emits exactly the four leaf documents `\x7b"a":"1"\x7d`,
`\x7b"b":\x7b"c":"2"\x7d\x7d`, `\x7b"b":\x7b"d":[1]\x7d\x7d`,
`\x7b"b":\x7b"d":[\x7b"e":"3"\x7d]\x7d\x7d`, in traversal order. -/
theorem C9_leaves_amended :
    splitToJSONLeaves C9input = .ok [C9doc1, C9doc2, C9doc3, C9doc4] := rfl

/-! ## Error model

The `ErrorResponse` type and the error sentinels are declared in a file of
this repository that is not in src/ (only their uses survive); they are
modelled from the spec, section 7. -/

/-- Go error values as this service builds them: an `ErrorResponse` sentinel
(status code plus message), a wrapping error produced by
`fmt.Errorf("%w: ...", err)`, or a plain error with no wrapped sentinel
(e.g. produced by `fmt.Errorf("%s: ...", err)`). -/
inductive GoError where
  | response (status : Nat) (message : String) : GoError
  | wrap (inner : GoError) (suffix : String) : GoError
  | plain (message : String) : GoError

/-- `err.Error()`: the rendered message of an error. -/
def goMessage : GoError → String
  | .response _ m => m
  | .wrap inner suffix => goMessage inner ++ suffix
  | .plain m => m

/-- Modelled from the spec: `ErrBadRequest`, the `BadRequest` kind with
stable status code 400 (the message text is a model choice; only the status
code matters to the claims). -/
def errBadRequest : GoError := .response 400 ("bad request")

/-- Modelled from the spec: `ErrNotFound`, status 404 with body
`\x7b"error":"not found"\x7d` per the spec's CRUD scenario. -/
def errNotFound : GoError := .response 404 ("not found")

/-- Modelled from the spec: `ErrInternalError`, the `Internal` kind with
stable status code 500. -/
def errInternalError : GoError := .response 500 ("internal server error")

/-- `errors.As(err, &e)` for `*ErrorResponse`: walk the wrapping chain and
return the first sentinel; a plain error has no sentinel. -/
def errorsAsResponse : GoError → Option (Nat × String)
  | .response s m => some (s, m)
  | .wrap inner _ => errorsAsResponse inner
  | .plain _ => none

/-- `errorResponse` of server.go: extract the `ErrorResponse` via
`errors.As`, falling back to `ErrInternalError`, and reply with its status
code and message. -/
def errorResponse (err : GoError) : Nat × String :=
  match errorsAsResponse err with
  | some e => e
  | none => (500, goMessage errInternalError)

/-! ## repository QueryMetadata: leaf-count ceiling (C6) -/

/-- `MaxFindObjectsByClearMetadataQuerySize` of the metabase repository. -/
def maxFindObjectsByClearMetadataQuerySize : Nat := 10

/-- The query-planning prefix of `MetabaseSearchRepository.QueryMetadata`:
marshal the containment query, split it into JSON leaves, and reject the
request when there are more than the ceiling.  The rejection error is built
with `fmt.Errorf("%s: too many values in metadata query", ErrBadRequest)` —
`%s`, not `%w` — so it renders the sentinel's message but does not wrap the
sentinel. -/
def queryMetadataLeafCheck (containsQuery : List (String × Jval)) :
    Except GoError (List String) :=
  let jsonContainsQuery := String.mk (render (.obj containsQuery))
  match splitToJSONLeaves jsonContainsQuery with
  | .error _ => .error (.wrap errInternalError (": unmarshal error"))
  | .ok parts =>
    if parts.length > maxFindObjectsByClearMetadataQuerySize then
      .error (.plain (goMessage errBadRequest ++ (": too many values in metadata query")))
    else .ok parts

/-- A match object with eleven leaves. -/
def C6match : List (String × Jval) :=
  [(("a" : String), Jval.arr [Jval.str ("1"), Jval.str ("2"), Jval.str ("3"),
    Jval.str ("4"), Jval.str ("5"), Jval.str ("6"), Jval.str ("7"),
    Jval.str ("8"), Jval.str ("9"), Jval.str ("10"), Jval.str ("11")])]

/-- C6: a match object with more than 10 leaves makes the metadata query fail
with the message `too many values in metadata query`, but — because the error
is built with `%s` instead of `%w` — the error does not carry the BadRequest
kind, and the HTTP layer reports it as an internal error (500), contradicting
the claim's BadRequest status.  This evaluates the code at the failing
input. -/
theorem C6_too_many_leaves_divergence :
    queryMetadataLeafCheck C6match
        = .error (GoError.plain ("bad request: too many values in metadata query"))
      ∧ errorResponse
          (GoError.plain ("bad request: too many values in metadata query"))
        = (500, ("internal server error" : String))
      ∧ (500 : Nat) ≠ 400 :=
  ⟨rfl, rfl, by decide⟩

/-! ## encryptor.go: Encryptor comparison and the EncryptorRepository -/

/-- Go strings are byte sequences; bytes are modelled as naturals. -/
abbrev GoBytes := List Nat

/-- `EncryptorComparisonResult` of encryptor.go. -/
inductive EncryptorComparisonResult where
  | Identical : EncryptorComparisonResult
  | Subset : EncryptorComparisonResult
  | Superset : EncryptorComparisonResult
  | Different : EncryptorComparisonResult
deriving DecidableEq, Repr

/-- `ObjectMetadata` of the repository: the three encrypted fields plus the
parsed cleartext JSON object. -/
structure ObjectMetadata where
  encryptedMetadataNonce : GoBytes
  encryptedMetadata : GoBytes
  encryptedMetadataKey : GoBytes
  clearMetadata : List (String × Jval)

/-- `ObjectLocation`: the identity quadruple. -/
structure ObjectLocation where
  projectID : GoBytes
  bucketName : GoBytes
  objectKey : GoBytes
  version : Int
deriving DecidableEq, Repr

/-- `ObjectInfo`: location, status byte, metadata and the migration-queue
timestamp (times are modelled as integers). -/
structure ObjectInfo where
  location : ObjectLocation
  status : Nat
  metadata : ObjectMetadata
  metaSearchQueuedAt : Option Int

/-- An `Encryptor`, as implemented by `UplinkEncryptor`: its set of
encryption-store entries (used by `Compare`; entries abstracted to an
arbitrary type with decidable equality) together with its path and metadata
decryption operations. -/
structure Encryptor (α : Type) where
  storeEntries : Finset α
  decryptPath : GoBytes → GoBytes → Except GoError GoBytes
  decryptMetadata : GoBytes → GoBytes → ObjectMetadata → Except GoError ObjectMetadata

/-- `UplinkEncryptor.Compare`: count the store entries of each side missing
from the other and classify. -/
def Compare {α : Type} [DecidableEq α] (e oe : Finset α) : EncryptorComparisonResult :=
  let superset := (e \ oe).card
  let subset := (oe \ e).card
  if subset = 0 ∧ superset = 0 then .Identical
  else if subset > 0 ∧ superset = 0 then .Subset
  else if subset = 0 ∧ superset > 0 then .Superset
  else .Different

/-- `EncryptorRepositoryEntry`: one stored encryptor with its counters. -/
structure EncryptorRepositoryEntry (α : Type) where
  encryptor : Encryptor α
  success : Int
  total : Int

/-- `EncryptorRepository.AddEncryptor`: walk the entries in order; an
identical or subset comparison returns false leaving the repository
unchanged; the first superset comparison replaces that entry (with fresh
counters) and returns true; otherwise the new encryptor is appended. -/
def AddEncryptor {α : Type} [DecidableEq α] (newEncryptor : Encryptor α) :
    List (EncryptorRepositoryEntry α) → Bool × List (EncryptorRepositoryEntry α)
  | [] => (true, [⟨newEncryptor, 0, 0⟩])
  | entry :: rest =>
    match Compare newEncryptor.storeEntries entry.encryptor.storeEntries with
    | .Identical => (false, entry :: rest)
    | .Subset => (false, entry :: rest)
    | .Superset => (true, ⟨newEncryptor, 0, 0⟩ :: rest)
    | .Different =>
      let r := AddEncryptor newEncryptor rest
      (r.1, entry :: r.2)

/-- `EncryptorRepository.DecryptMetadata`: try each entry in insertion order,
incrementing its total counter; on the first entry whose path and metadata
decryptions both succeed, increment its success counter and return the clear
key and new metadata; if all fail, return the encrypted key, the original
metadata, and the cannot-find-key error. -/
def DecryptMetadata {α : Type} (obj : ObjectInfo) :
    List (EncryptorRepositoryEntry α) →
    (GoBytes × ObjectMetadata × Option GoError) × List (EncryptorRepositoryEntry α)
  | [] =>
    ((obj.location.objectKey, obj.metadata,
      some (.plain ("cannot find decryption key for object"))), [])
  | e :: rest =>
    match e.encryptor.decryptPath obj.location.bucketName obj.location.objectKey with
    | .error _ =>
      let r := DecryptMetadata obj rest
      (r.1, { e with total := e.total + 1 } :: r.2)
    | .ok clearObjectKey =>
      match e.encryptor.decryptMetadata obj.location.bucketName clearObjectKey obj.metadata with
      | .error _ =>
        let r := DecryptMetadata obj rest
        (r.1, { e with total := e.total + 1 } :: r.2)
      | .ok meta2 =>
        ((clearObjectKey, meta2, none),
          { e with total := e.total + 1, success := e.success + 1 } :: rest)

/-- Whether one encryptor decrypts the object's path and metadata (the
success condition of the `DecryptMetadata` walk). -/
def encSucceeds {α : Type} (obj : ObjectInfo) (en : Encryptor α) :
    Option (GoBytes × ObjectMetadata) :=
  match en.decryptPath obj.location.bucketName obj.location.objectKey with
  | .error _ => none
  | .ok ck =>
    match en.decryptMetadata obj.location.bucketName ck obj.metadata with
    | .error _ => none
    | .ok m => some (ck, m)

/-- Repository states whose earlier entries are never identical to nor
subsets of later entries (the invariant maintained by `AddEncryptor`). -/
def RepoInv {α : Type} [DecidableEq α] (rs : List (EncryptorRepositoryEntry α)) : Prop :=
  List.Pairwise (fun a b =>
    Compare a.encryptor.storeEntries b.encryptor.storeEntries = .Different ∨
    Compare a.encryptor.storeEntries b.encryptor.storeEntries = .Superset) rs

/-- A repository built by a sequence of `AddEncryptor` calls from empty. -/
def buildRepo {α : Type} [DecidableEq α] (es : List (Encryptor α)) :
    List (EncryptorRepositoryEntry α) :=
  es.foldl (fun rs en => (AddEncryptor en rs).2) []

lemma sdiff_card_zero_iff {α : Type} [DecidableEq α] (e o : Finset α) :
    (e \ o).card = 0 ↔ e ⊆ o := by
  rw [Finset.card_eq_zero, Finset.sdiff_eq_empty_iff_subset]

lemma compare_identical_iff {α : Type} [DecidableEq α] (e o : Finset α) :
    Compare e o = .Identical ↔ e = o := by
  unfold Compare
  by_cases hs : (o \ e).card = 0 <;> by_cases hp : (e \ o).card = 0
  · rw [if_pos ⟨hs, hp⟩]
    simp only [true_iff]
    exact Finset.Subset.antisymm ((sdiff_card_zero_iff e o).mp hp)
      ((sdiff_card_zero_iff o e).mp hs)
  · rw [if_neg (by omega), if_neg (by omega), if_pos ⟨hs, by omega⟩]
    constructor
    · intro h; exact absurd h (by simp)
    · intro h; subst h; exact absurd (by simp : (e \ e).card = 0) hp
  · rw [if_neg (by omega), if_pos ⟨by omega, hp⟩]
    constructor
    · intro h; exact absurd h (by simp)
    · intro h; subst h; exact absurd (by simp : (e \ e).card = 0) hs
  · rw [if_neg (by omega), if_neg (by omega), if_neg (by omega)]
    constructor
    · intro h; exact absurd h (by simp)
    · intro h; subst h; exact absurd (by simp : (e \ e).card = 0) hs

lemma compare_subset_iff {α : Type} [DecidableEq α] (e o : Finset α) :
    Compare e o = .Subset ↔ e ⊂ o := by
  unfold Compare
  by_cases hs : (o \ e).card = 0 <;> by_cases hp : (e \ o).card = 0
  · rw [if_pos ⟨hs, hp⟩]
    constructor
    · intro h; exact absurd h (by simp)
    · intro h
      exact absurd ((sdiff_card_zero_iff o e).mp hs) h.2
  · rw [if_neg (by omega), if_neg (by omega), if_pos ⟨hs, by omega⟩]
    constructor
    · intro h; exact absurd h (by simp)
    · intro h
      exact absurd ((sdiff_card_zero_iff o e).mp hs) h.2
  · rw [if_neg (by omega), if_pos ⟨by omega, hp⟩]
    simp only [true_iff]
    refine ⟨(sdiff_card_zero_iff e o).mp hp, ?_⟩
    intro hoe
    exact hs ((sdiff_card_zero_iff o e).mpr hoe)
  · rw [if_neg (by omega), if_neg (by omega), if_neg (by omega)]
    constructor
    · intro h; exact absurd h (by simp)
    · intro h
      exact absurd ((sdiff_card_zero_iff e o).mpr h.1) hp

lemma compare_superset_iff {α : Type} [DecidableEq α] (e o : Finset α) :
    Compare e o = .Superset ↔ o ⊂ e := by
  unfold Compare
  by_cases hs : (o \ e).card = 0 <;> by_cases hp : (e \ o).card = 0
  · rw [if_pos ⟨hs, hp⟩]
    constructor
    · intro h; exact absurd h (by simp)
    · intro h
      exact absurd ((sdiff_card_zero_iff e o).mp hp) h.2
  · rw [if_neg (by omega), if_neg (by omega), if_pos ⟨hs, by omega⟩]
    simp only [true_iff]
    refine ⟨(sdiff_card_zero_iff o e).mp hs, ?_⟩
    intro heo
    exact hp ((sdiff_card_zero_iff e o).mpr heo)
  · rw [if_neg (by omega), if_pos ⟨by omega, hp⟩]
    constructor
    · intro h; exact absurd h (by simp)
    · intro h
      exact absurd ((sdiff_card_zero_iff e o).mp hp) h.2
  · rw [if_neg (by omega), if_neg (by omega), if_neg (by omega)]
    constructor
    · intro h; exact absurd h (by simp)
    · intro h
      exact absurd ((sdiff_card_zero_iff o e).mpr h.1) hs

lemma AddEncryptor_cons {α : Type} [DecidableEq α] (new : Encryptor α)
    (entry : EncryptorRepositoryEntry α) (rest : List (EncryptorRepositoryEntry α)) :
    AddEncryptor new (entry :: rest) =
      match Compare new.storeEntries entry.encryptor.storeEntries with
      | .Identical => (false, entry :: rest)
      | .Subset => (false, entry :: rest)
      | .Superset => (true, ⟨new, 0, 0⟩ :: rest)
      | .Different =>
        ((AddEncryptor new rest).1, entry :: (AddEncryptor new rest).2) := rfl

lemma AddEncryptor_mem {α : Type} [DecidableEq α] (new : Encryptor α) :
    ∀ (rs : List (EncryptorRepositoryEntry α)) (b : EncryptorRepositoryEntry α),
      b ∈ (AddEncryptor new rs).2 → b ∈ rs ∨ b = ⟨new, 0, 0⟩ := by
  intro rs
  induction rs with
  | nil =>
    intro b hb
    right
    have he : (AddEncryptor new ([] : List (EncryptorRepositoryEntry α))).2
        = [⟨new, 0, 0⟩] := rfl
    rw [he] at hb
    simpa using hb
  | cons entry rest ih =>
    intro b hb
    rw [AddEncryptor_cons] at hb
    cases hc : Compare new.storeEntries entry.encryptor.storeEntries <;> rw [hc] at hb
    · exact Or.inl hb
    · exact Or.inl hb
    · rcases List.mem_cons.mp hb with hb | hb
      · exact Or.inr hb
      · exact Or.inl (List.mem_cons_of_mem entry hb)
    · rcases List.mem_cons.mp hb with hb | hb
      · exact Or.inl (by rw [hb]; exact List.mem_cons_self entry rest)
      · rcases ih b hb with h | h
        · exact Or.inl (List.mem_cons_of_mem entry h)
        · exact Or.inr h

lemma compare_different_iff {α : Type} [DecidableEq α] (e o : Finset α) :
    Compare e o = .Different ↔ ¬e ⊆ o ∧ ¬o ⊆ e := by
  rcases hc : Compare e o with h | h | h | h
  · rw [compare_identical_iff] at hc
    subst hc
    simp
  · rw [compare_subset_iff] at hc
    constructor
    · intro h; exact absurd h (by simp)
    · intro h; exact absurd hc.1 h.1
  · rw [compare_superset_iff] at hc
    constructor
    · intro h; exact absurd h (by simp)
    · intro h; exact absurd hc.1 h.2
  · simp only [true_iff]
    constructor
    · intro hsub
      by_cases hback : o ⊆ e
      · exact absurd ((compare_identical_iff e o).mpr (Finset.Subset.antisymm hsub hback))
          (by rw [hc]; simp)
      · exact absurd ((compare_subset_iff e o).mpr ⟨hsub, hback⟩) (by rw [hc]; simp)
    · intro hsub
      by_cases hback : e ⊆ o
      · exact absurd ((compare_identical_iff e o).mpr (Finset.Subset.antisymm hback hsub))
          (by rw [hc]; simp)
      · exact absurd ((compare_superset_iff e o).mpr ⟨hsub, hback⟩) (by rw [hc]; simp)

/-- An invariant pair relation implies the earlier set is not contained in
the later one. -/
lemma inv_pair_not_subset {α : Type} [DecidableEq α]
    {a b : Finset α}
    (h : Compare a b = .Different ∨ Compare a b = .Superset) : ¬a ⊆ b := by
  rcases h with h | h
  · exact ((compare_different_iff a b).mp h).1
  · rw [compare_superset_iff] at h
    intro hab
    exact absurd (Finset.Subset.antisymm h.1 hab) (by
      intro heq
      rw [heq] at h
      exact h.2 (le_refl _))

/-- `AddEncryptor` preserves the repository invariant: earlier entries are
never identical to nor subsets of later entries. -/
lemma AddEncryptor_inv {α : Type} [DecidableEq α] (new : Encryptor α) :
    ∀ (rs : List (EncryptorRepositoryEntry α)), RepoInv rs →
      RepoInv (AddEncryptor new rs).2 := by
  intro rs
  induction rs with
  | nil =>
    intro _
    exact List.pairwise_singleton _ _
  | cons entry rest ih =>
    intro hinv
    rw [RepoInv, List.pairwise_cons] at hinv
    rw [AddEncryptor_cons]
    cases hc : Compare new.storeEntries entry.encryptor.storeEntries
    · exact List.Pairwise.cons hinv.1 hinv.2
    · exact List.Pairwise.cons hinv.1 hinv.2
    · -- replacement: entry ⊊ new; later entries keep the invariant with new
      rw [compare_superset_iff] at hc
      refine List.Pairwise.cons ?_ hinv.2
      intro b hb
      have hnotsub : ¬entry.encryptor.storeEntries ⊆ b.encryptor.storeEntries :=
        inv_pair_not_subset (hinv.1 b hb)
      rcases hcb : Compare new.storeEntries b.encryptor.storeEntries with _ | _ | _ | _
      · rw [compare_identical_iff] at hcb
        exact absurd (hcb ▸ le_of_lt hc) hnotsub
      · rw [compare_subset_iff] at hcb
        exact absurd (le_trans (le_of_lt hc) (le_of_lt hcb)) hnotsub
      · exact Or.inr rfl
      · exact Or.inl rfl
    · -- incomparable head: recurse
      refine List.Pairwise.cons ?_ (ih hinv.2)
      intro b hb
      rcases AddEncryptor_mem new rest b hb with h | h
      · exact hinv.1 b h
      · rw [h]
        left
        rw [compare_different_iff] at hc ⊢
        exact ⟨hc.2, hc.1⟩

lemma buildRepo_inv {α : Type} [DecidableEq α] :
    ∀ (es : List (Encryptor α)) (rs : List (EncryptorRepositoryEntry α)), RepoInv rs →
      RepoInv (es.foldl (fun rs en => (AddEncryptor en rs).2) rs) := by
  intro es
  induction es with
  | nil => intro rs h; exact h
  | cons en es ih =>
    intro rs h
    exact ih ((AddEncryptor en rs).2) (AddEncryptor_inv en rs h)

/-- Trivial decrypt operations for the concrete counterexample encryptors. -/
def ceDecryptPath : GoBytes → GoBytes → Except GoError GoBytes := fun _ k => .ok k

/-- Trivial metadata decrypt for the concrete counterexample encryptors. -/
def ceDecryptMeta : GoBytes → GoBytes → ObjectMetadata → Except GoError ObjectMetadata :=
  fun _ _ m => .ok m

/-- Counterexample encryptor with store-entry set `\x7b0\x7d`. -/
def ce1 : Encryptor Nat := ⟨{0}, ceDecryptPath, ceDecryptMeta⟩

/-- Counterexample encryptor with store-entry set `\x7b1\x7d`. -/
def ce2 : Encryptor Nat := ⟨{1}, ceDecryptPath, ceDecryptMeta⟩

/-- Counterexample encryptor with store-entry set `\x7b0, 1\x7d`. -/
def ce3 : Encryptor Nat := ⟨{0, 1}, ceDecryptPath, ceDecryptMeta⟩

/-- C2 counterexample: after adding `\x7b0\x7d`, `\x7b1\x7d`, `\x7b0,1\x7d`,
the superset `\x7b0,1\x7d` replaces only the first dominated entry, so the
repository holds `[\x7b0,1\x7d, \x7b1\x7d]`, whose second entry compares as a
Subset of the first — refuting the claim that no stored pair compares as
Subset or Superset. -/
theorem C2_subset_pair_counterexample :
    (buildRepo [ce1, ce2, ce3]).map (fun en => en.encryptor.storeEntries)
        = [ce3.storeEntries, ce2.storeEntries]
      ∧ Compare ce2.storeEntries ce3.storeEntries = .Subset
      ∧ Compare ce3.storeEntries ce2.storeEntries = .Superset := by
  refine ⟨?_, by decide, by decide⟩
  show (buildRepo [ce1, ce2, ce3]).map (fun en => en.encryptor.storeEntries) = _
  rfl

/-- C2 (amended): after any finite sequence of `AddEncryptor` calls starting
from an empty repository, no stored entry compares as Identical to or a
Subset of an entry stored after it — for every earlier-later pair of entries,
`Compare(earlier, later)` is Different or Superset.  (A later entry may still
be a subset of an earlier one: a superset replaces only the first dominated
entry.) -/
theorem C2_no_earlier_subset_amended {α : Type} [DecidableEq α]
    (es : List (Encryptor α)) : RepoInv (buildRepo es) :=
  buildRepo_inv es [] List.Pairwise.nil

lemma AddEncryptor_identical {α : Type} [DecidableEq α] {new : Encryptor α}
    {entry : EncryptorRepositoryEntry α} {rest : List (EncryptorRepositoryEntry α)}
    (h : Compare new.storeEntries entry.encryptor.storeEntries = .Identical) :
    AddEncryptor new (entry :: rest) = (false, entry :: rest) := by
  rw [AddEncryptor_cons, h]

lemma AddEncryptor_subset {α : Type} [DecidableEq α] {new : Encryptor α}
    {entry : EncryptorRepositoryEntry α} {rest : List (EncryptorRepositoryEntry α)}
    (h : Compare new.storeEntries entry.encryptor.storeEntries = .Subset) :
    AddEncryptor new (entry :: rest) = (false, entry :: rest) := by
  rw [AddEncryptor_cons, h]

lemma AddEncryptor_superset {α : Type} [DecidableEq α] {new : Encryptor α}
    {entry : EncryptorRepositoryEntry α} {rest : List (EncryptorRepositoryEntry α)}
    (h : Compare new.storeEntries entry.encryptor.storeEntries = .Superset) :
    AddEncryptor new (entry :: rest) = (true, ⟨new, 0, 0⟩ :: rest) := by
  rw [AddEncryptor_cons, h]

lemma AddEncryptor_different {α : Type} [DecidableEq α] {new : Encryptor α}
    {entry : EncryptorRepositoryEntry α} {rest : List (EncryptorRepositoryEntry α)}
    (h : Compare new.storeEntries entry.encryptor.storeEntries = .Different) :
    AddEncryptor new (entry :: rest)
      = ((AddEncryptor new rest).1, entry :: (AddEncryptor new rest).2) := by
  rw [AddEncryptor_cons, h]

lemma AddEncryptor_first_superset {α : Type} [DecidableEq α] (new : Encryptor α) :
    ∀ (pre : List (EncryptorRepositoryEntry α)) (e : EncryptorRepositoryEntry α)
      (post : List (EncryptorRepositoryEntry α)),
      (∀ p ∈ pre ++ e :: post,
        Compare new.storeEntries p.encryptor.storeEntries ≠ .Identical ∧
        Compare new.storeEntries p.encryptor.storeEntries ≠ .Subset) →
      Compare new.storeEntries e.encryptor.storeEntries = .Superset →
      (∀ p ∈ pre, Compare new.storeEntries p.encryptor.storeEntries ≠ .Superset) →
      AddEncryptor new (pre ++ e :: post) = (true, pre ++ ⟨new, 0, 0⟩ :: post) := by
  intro pre
  induction pre with
  | nil =>
    intro e post _ hsup _
    rw [List.nil_append, AddEncryptor_superset hsup, List.nil_append]
  | cons p pre' ih =>
    intro e post hno hsup hfirst
    have hp := hno p (by simp)
    have hpsup := hfirst p (by simp)
    have hd : Compare new.storeEntries p.encryptor.storeEntries = .Different := by
      rcases hc : Compare new.storeEntries p.encryptor.storeEntries with _ | _ | _ | _
      · exact absurd hc hp.1
      · exact absurd hc hp.2
      · exact absurd hc hpsup
      · rfl
    rw [List.cons_append, AddEncryptor_different hd,
      ih e post (fun q hq => hno q (by simp [hq])) hsup
        (fun q hq => hfirst q (by simp [hq]))]
    rfl

lemma AddEncryptor_all_different {α : Type} [DecidableEq α] (new : Encryptor α) :
    ∀ (rs : List (EncryptorRepositoryEntry α)),
      (∀ e ∈ rs, Compare new.storeEntries e.encryptor.storeEntries = .Different) →
      AddEncryptor new rs = (true, rs ++ [⟨new, 0, 0⟩]) := by
  intro rs
  induction rs with
  | nil => intro _; rfl
  | cons entry rest ih =>
    intro hall
    rw [AddEncryptor_different (hall entry (by simp)),
      ih (fun e he => hall e (by simp [he]))]
    rfl

lemma AddEncryptor_stops_false {α : Type} [DecidableEq α] (new : Encryptor α) :
    ∀ (rs : List (EncryptorRepositoryEntry α)), RepoInv rs →
      (∃ e ∈ rs, Compare new.storeEntries e.encryptor.storeEntries = .Identical ∨
        Compare new.storeEntries e.encryptor.storeEntries = .Subset) →
      AddEncryptor new rs = (false, rs) := by
  intro rs
  induction rs with
  | nil =>
    intro _ h
    obtain ⟨e, he, _⟩ := h
    exact absurd he (by simp)
  | cons entry rest ih =>
    intro hinv hex
    obtain ⟨e, he, hrel⟩ := hex
    rw [RepoInv, List.pairwise_cons] at hinv
    rcases hc : Compare new.storeEntries entry.encryptor.storeEntries with _ | _ | _ | _
    · exact AddEncryptor_identical hc
    · exact AddEncryptor_subset hc
    · -- impossible: the walk met a dominated earlier entry first
      exfalso
      have hee : e ∈ rest := by
        rcases List.mem_cons.mp he with h | h
        · subst h
          rw [hc] at hrel
          rcases hrel with h | h <;> simp at h
        · exact h
      have hns : ¬entry.encryptor.storeEntries ⊆ e.encryptor.storeEntries :=
        inv_pair_not_subset (hinv.1 e hee)
      rw [compare_superset_iff] at hc
      rcases hrel with h | h
      · rw [compare_identical_iff] at h
        exact hns (h ▸ le_of_lt hc)
      · rw [compare_subset_iff] at h
        exact hns (le_trans (le_of_lt hc) (le_of_lt h))
    · have hee : e ∈ rest := by
        rcases List.mem_cons.mp he with h | h
        · subst h
          rw [hc] at hrel
          rcases hrel with h | h <;> simp at h
        · exact h
      rw [AddEncryptor_different hc, ih hinv.2 ⟨e, hee, hrel⟩]

/-- C3: on any reachable repository state (one satisfying the `AddEncryptor`
invariant), `AddEncryptor(new)` behaves as claimed: (a) if new compares as
Identical to or a Subset of some stored entry, it returns false and leaves
the repository unchanged; (b) if no such entry exists and new compares as a
strict Superset of some entry, it replaces exactly the first such entry
(keeping all other entries) and returns true; (c) if new compares as
Different to every entry, it appends new and returns true.  The conclusion of
(b) shows at most one replacement occurs. -/
theorem C3_AddEncryptor_behavior {α : Type} [DecidableEq α] (new : Encryptor α)
    (rs : List (EncryptorRepositoryEntry α)) (hinv : RepoInv rs) :
    ((∃ e ∈ rs, Compare new.storeEntries e.encryptor.storeEntries = .Identical ∨
        Compare new.storeEntries e.encryptor.storeEntries = .Subset) →
      AddEncryptor new rs = (false, rs))
    ∧ (∀ pre e post, rs = pre ++ e :: post →
        (∀ p ∈ rs, Compare new.storeEntries p.encryptor.storeEntries ≠ .Identical ∧
          Compare new.storeEntries p.encryptor.storeEntries ≠ .Subset) →
        Compare new.storeEntries e.encryptor.storeEntries = .Superset →
        (∀ p ∈ pre, Compare new.storeEntries p.encryptor.storeEntries ≠ .Superset) →
        AddEncryptor new rs = (true, pre ++ ⟨new, 0, 0⟩ :: post))
    ∧ ((∀ e ∈ rs, Compare new.storeEntries e.encryptor.storeEntries = .Different) →
      AddEncryptor new rs = (true, rs ++ [⟨new, 0, 0⟩])) := by
  refine ⟨AddEncryptor_stops_false new rs hinv, ?_, AddEncryptor_all_different new rs⟩
  intro pre e post hrs hno hsup hfirst
  subst hrs
  exact AddEncryptor_first_superset new pre e post hno hsup hfirst

/-- Witness for C3 at a concrete input: adding the superset `\x7b0,1\x7d` to a
repository holding only `\x7b0\x7d` replaces that entry and returns true. -/
theorem C3_AddEncryptor_behavior_witness :
    AddEncryptor ce3 [⟨ce1, 0, 0⟩] = (true, [⟨ce3, 0, 0⟩]) := by
  have h := (C3_AddEncryptor_behavior ce3 [⟨ce1, 0, 0⟩]
      (List.pairwise_singleton _ _)).2.1 [] ⟨ce1, 0, 0⟩ [] rfl
    (by
      intro p hp
      have hpe : p = ⟨ce1, 0, 0⟩ := by simpa using hp
      subst hpe
      exact ⟨by decide, by decide⟩)
    (by decide)
    (by intro p hp; simp at hp)
  exact h

lemma DecryptMetadata_cons {α : Type} (obj : ObjectInfo)
    (e : EncryptorRepositoryEntry α) (rest : List (EncryptorRepositoryEntry α)) :
    DecryptMetadata obj (e :: rest) =
      match e.encryptor.decryptPath obj.location.bucketName obj.location.objectKey with
      | .error _ =>
        ((DecryptMetadata obj rest).1,
          { e with total := e.total + 1 } :: (DecryptMetadata obj rest).2)
      | .ok clearObjectKey =>
        match e.encryptor.decryptMetadata obj.location.bucketName clearObjectKey
            obj.metadata with
        | .error _ =>
          ((DecryptMetadata obj rest).1,
            { e with total := e.total + 1 } :: (DecryptMetadata obj rest).2)
        | .ok meta2 =>
          ((clearObjectKey, meta2, none),
            { e with total := e.total + 1, success := e.success + 1 } :: rest) := rfl

lemma DecryptMetadata_fail_step {α : Type} {obj : ObjectInfo}
    {e : EncryptorRepositoryEntry α} {rest : List (EncryptorRepositoryEntry α)}
    (h : encSucceeds obj e.encryptor = none) :
    DecryptMetadata obj (e :: rest)
      = ((DecryptMetadata obj rest).1,
          { e with total := e.total + 1 } :: (DecryptMetadata obj rest).2) := by
  unfold encSucceeds at h
  cases hp : e.encryptor.decryptPath obj.location.bucketName obj.location.objectKey with
  | error err => rw [DecryptMetadata_cons, hp]
  | ok ck =>
    rw [hp] at h
    have h' : (match e.encryptor.decryptMetadata obj.location.bucketName ck obj.metadata with
        | Except.error _ => (none : Option (GoBytes × ObjectMetadata))
        | Except.ok m => some (ck, m)) = none := h
    cases hm : e.encryptor.decryptMetadata obj.location.bucketName ck obj.metadata with
    | error err =>
      rw [DecryptMetadata_cons, hp]
      show (match e.encryptor.decryptMetadata obj.location.bucketName ck obj.metadata with
        | .error _ =>
          ((DecryptMetadata obj rest).1,
            { e with total := e.total + 1 } :: (DecryptMetadata obj rest).2)
        | .ok meta2 =>
          ((ck, meta2, none),
            { e with total := e.total + 1, success := e.success + 1 } :: rest)) = _
      rw [hm]
    | ok m2 =>
      rw [hm] at h'
      simp at h' 

lemma DecryptMetadata_success_step {α : Type} {obj : ObjectInfo}
    {e : EncryptorRepositoryEntry α} {rest : List (EncryptorRepositoryEntry α)}
    {ck : GoBytes} {m : ObjectMetadata}
    (h : encSucceeds obj e.encryptor = some (ck, m)) :
    DecryptMetadata obj (e :: rest)
      = ((ck, m, none),
          { e with total := e.total + 1, success := e.success + 1 } :: rest) := by
  unfold encSucceeds at h
  cases hp : e.encryptor.decryptPath obj.location.bucketName obj.location.objectKey with
  | error err => rw [hp] at h; simp at h
  | ok ck' =>
    rw [hp] at h
    have h' : (match e.encryptor.decryptMetadata obj.location.bucketName ck' obj.metadata with
        | Except.error _ => (none : Option (GoBytes × ObjectMetadata))
        | Except.ok m => some (ck', m)) = some (ck, m) := h
    cases hm : e.encryptor.decryptMetadata obj.location.bucketName ck' obj.metadata with
    | error err => rw [hm] at h'; simp at h'
    | ok m2 =>
      rw [hm] at h'
      have h2 := Option.some.inj h' 
      have hck : ck' = ck := congrArg Prod.fst h2
      have hm2 : m2 = m := congrArg Prod.snd h2
      subst hck
      subst hm2
      rw [DecryptMetadata_cons, hp]
      show (match e.encryptor.decryptMetadata obj.location.bucketName ck' obj.metadata with
        | .error _ =>
          ((DecryptMetadata obj rest).1,
            { e with total := e.total + 1 } :: (DecryptMetadata obj rest).2)
        | .ok meta2 =>
          ((ck', meta2, none),
            { e with total := e.total + 1, success := e.success + 1 } :: rest)) = _
      rw [hm]

lemma DecryptMetadata_all_fail {α : Type} (obj : ObjectInfo) :
    ∀ (rs : List (EncryptorRepositoryEntry α)),
      (∀ e ∈ rs, encSucceeds obj e.encryptor = none) →
      DecryptMetadata obj rs =
        ((obj.location.objectKey, obj.metadata,
          some (.plain ("cannot find decryption key for object"))),
         rs.map (fun e => { e with total := e.total + 1 })) := by
  intro rs
  induction rs with
  | nil => intro _; rfl
  | cons e rest ih =>
    intro hall
    rw [DecryptMetadata_fail_step (hall e (by simp)),
      ih (fun p hp => hall p (by simp [hp]))]
    rfl

lemma DecryptMetadata_first_success {α : Type} (obj : ObjectInfo) :
    ∀ (pre : List (EncryptorRepositoryEntry α)) (e : EncryptorRepositoryEntry α)
      (post : List (EncryptorRepositoryEntry α)) (ck : GoBytes) (m : ObjectMetadata),
      (∀ p ∈ pre, encSucceeds obj p.encryptor = none) →
      encSucceeds obj e.encryptor = some (ck, m) →
      DecryptMetadata obj (pre ++ e :: post) =
        ((ck, m, none),
         pre.map (fun p => { p with total := p.total + 1 })
           ++ { e with total := e.total + 1, success := e.success + 1 } :: post) := by
  intro pre
  induction pre with
  | nil =>
    intro e post ck m _ hsucc
    rw [List.nil_append, DecryptMetadata_success_step hsucc]
    rfl
  | cons p pre' ih =>
    intro e post ck m hfail hsucc
    rw [List.cons_append, DecryptMetadata_fail_step (hfail p (by simp)),
      ih e post ck m (fun q hq => hfail q (by simp [hq])) hsucc]
    rfl

/-- C4: `EncryptorRepository.DecryptMetadata` tries the stored encryptors in
insertion order, incrementing each tried entry's total counter; for the first
encryptor whose path and metadata decryption both succeed it also increments
that entry's success counter and returns the clear object key with the new
metadata (later entries untouched); if every encryptor fails, it returns the
object's original encrypted key, the original metadata, and the
cannot-find-decryption-key error, with every entry's total incremented. -/
theorem C4_DecryptMetadata_behavior {α : Type} (obj : ObjectInfo)
    (rs : List (EncryptorRepositoryEntry α)) :
    ((∀ e ∈ rs, encSucceeds obj e.encryptor = none) →
      DecryptMetadata obj rs =
        ((obj.location.objectKey, obj.metadata,
          some (.plain ("cannot find decryption key for object"))),
         rs.map (fun e => { e with total := e.total + 1 })))
    ∧ (∀ pre e post ck m, rs = pre ++ e :: post →
        (∀ p ∈ pre, encSucceeds obj p.encryptor = none) →
        encSucceeds obj e.encryptor = some (ck, m) →
        DecryptMetadata obj rs =
          ((ck, m, none),
           pre.map (fun p => { p with total := p.total + 1 })
             ++ { e with total := e.total + 1, success := e.success + 1 } :: post)) := by
  refine ⟨DecryptMetadata_all_fail obj rs, ?_⟩
  intro pre e post ck m hrs hfail hsucc
  subst hrs
  exact DecryptMetadata_first_success obj pre e post ck m hfail hsucc

/-- A counterexample encryptor that always fails to decrypt. -/
def cwFail : Encryptor Nat :=
  ⟨∅, fun _ _ => .error (.plain ("no key")), fun _ _ _ => .error (.plain ("no key"))⟩

/-- A concrete object for the C4 witness. -/
def cwObj : ObjectInfo := ⟨⟨[1], [2], [3], 0⟩, 3, ⟨[], [], [], []⟩, none⟩

/-- Witness for C4 at a concrete repository: the first entry fails (its total
is bumped), the second succeeds (total and success bumped), and the clear key
and metadata of the second are returned. -/
theorem C4_DecryptMetadata_behavior_witness :
    DecryptMetadata cwObj [⟨cwFail, 0, 4⟩, ⟨ce1, 2, 3⟩]
      = (([3], cwObj.metadata, none), [⟨cwFail, 0, 5⟩, ⟨ce1, 3, 4⟩]) := by
  have h := (C4_DecryptMetadata_behavior cwObj [⟨cwFail, 0, 4⟩, ⟨ce1, 2, 3⟩]).2
    [⟨cwFail, 0, 4⟩] ⟨ce1, 2, 3⟩ [] [3] cwObj.metadata rfl
    (by
      intro p hp
      have hpe : p = ⟨cwFail, 0, 4⟩ := by simpa using hp
      subst hpe
      rfl)
    rfl
  exact h

/-! ## the object migrator worker (C7) and HandleGet (C10) -/

/-- `ObjectMigratorWorker` state relevant to migration scheduling: the
per-project scan start time and the encryptor repository (times are
integers, as elsewhere). -/
structure ObjectMigratorWorker (α : Type) where
  startTime : Option Int
  encryptors : List (EncryptorRepositoryEntry α)

/-- `ObjectMigratorWorker.updateStartTime`: replace the worker's start time
by the object's queued-at time (`queuedAt` is the dereferenced
`*obj.MetaSearchQueuedAt`) when no start time is set yet or the current one
is strictly before it (`time.Time.Before` is strict). -/
def updateStartTime (startTime : Option Int) (queuedAt : Int) : Option Int :=
  match startTime with
  | none => some queuedAt
  | some t => if t < queuedAt then some queuedAt else some t

/-- `ObjectMigratorWorker.MigrateObject` for an object of the worker's own
project whose queued-at time is `q`: decrypt the object's metadata through
the encryptor repository; on failure record the time via `updateStartTime`
and return the error; on success prune the repository, migrate the metadata
in the database, and on database success record the time.  The two database
effects — the `CheckEncryptors` pruning and `repo.MigrateMetadata` — are
abstracted as the `prune` and `migrateMeta` parameters; the decrypt-failure
path under scrutiny never reaches them. -/
def MigrateObject {α : Type} (w : ObjectMigratorWorker α) (obj : ObjectInfo) (q : Int)
    (prune : List (EncryptorRepositoryEntry α) → List (EncryptorRepositoryEntry α))
    (migrateMeta : ObjectInfo → Except GoError Unit) :
    Except GoError Unit × ObjectMigratorWorker α :=
  let r := DecryptMetadata obj w.encryptors
  match r.1.2.2 with
  | some err =>
    (Except.error err,
      { w with encryptors := r.2, startTime := updateStartTime w.startTime q })
  | none =>
    let w2 : ObjectMigratorWorker α := { w with encryptors := prune r.2 }
    let obj2 : ObjectInfo := { obj with metadata := r.1.2.1 }
    match migrateMeta obj2 with
    | Except.error e => (Except.error e, w2)
    | Except.ok _ => (Except.ok (), { w2 with startTime := updateStartTime w2.startTime q })

/-- Row-selection predicate of the SQL query in
`MetabaseSearchRepository.GetObjectsForMigration`: a row qualifies when
`metasearch_queued_at IS NOT NULL` and, if a start time was passed,
`metasearch_queued_at >= $2` — an inclusive comparison. -/
def GetObjectsForMigrationSelects (startTime : Option Int) (queuedAt : Option Int) : Bool :=
  match queuedAt with
  | none => false
  | some q =>
    match startTime with
    | none => true
    | some t => decide (t ≤ q)

/-- Concrete queued object whose decryption fails (the worker holds no
usable encryptor). -/
def c7obj : ObjectInfo :=
  ⟨⟨[1], [2], [3], 0⟩, 3, ⟨[], [], [], []⟩, some 5⟩

/-- C7: after a failed migration the worker's start time equals the failed
object's queued-at time — it is not advanced past it — and the inclusive
`metasearch_queued_at >= startTime` scan of `GetObjectsForMigration`
selects the very same object again, so the object IS re-examined by
subsequent scans, contrary to the claim. -/
theorem C7_failed_object_rescanned :
    ∃ err w2,
      MigrateObject (⟨none, []⟩ : ObjectMigratorWorker (Fin 2)) c7obj 5
          id (fun _ => Except.ok ()) = (Except.error err, w2)
      ∧ w2.startTime = some 5
      ∧ GetObjectsForMigrationSelects w2.startTime c7obj.metaSearchQueuedAt = true :=
  ⟨GoError.plain ("cannot find decryption key for object"),
    ⟨some 5, []⟩, rfl, rfl, rfl⟩

/-- `Server.HandleGet`, parameterized by the outcomes of its three fallible
steps (`validateRequest`, `Authorizer.Authorize`, `Repo.GetMetadata`) and by
the inline migrator `s.Migrator.MigrateObject`, which may update the object
in place (modelled as returning the updated object).  When the fetched
object has a queued-at time the migrator runs and its error is discarded;
the response is always 200 with the JSON of the object's clear metadata. -/
def HandleGet (validate : Except GoError Unit) (authorize : Except GoError Unit)
    (getMeta : Except GoError ObjectInfo)
    (migrate : ObjectInfo → Except GoError Unit × ObjectInfo) : Nat × String :=
  match validate with
  | Except.error e => errorResponse e
  | Except.ok _ =>
    match authorize with
    | Except.error e => errorResponse e
    | Except.ok _ =>
      match getMeta with
      | Except.error e => errorResponse e
      | Except.ok obj =>
        let obj2 := match obj.metaSearchQueuedAt with
          | none => obj
          | some _ => (migrate obj).2
        (200, String.mk (render (Jval.obj obj2.metadata.clearMetadata)))

/-- C10: when the fetched object is queued for migration, `HandleGet` runs
the inline migrator and — whatever the migrator's outcome, including
failure — responds 200 with the (possibly updated) object's clear
metadata; the migration error never reaches the client. -/
theorem C10_get_migration_error_discarded (obj : ObjectInfo) (t : Int)
    (hq : obj.metaSearchQueuedAt = some t)
    (migrate : ObjectInfo → Except GoError Unit × ObjectInfo) :
    HandleGet (Except.ok ()) (Except.ok ()) (Except.ok obj) migrate =
      (200, String.mk (render (Jval.obj ((migrate obj).2.metadata.clearMetadata)))) := by
  cases obj with
  | mk loc st md q =>
    cases hq
    rfl

/-- Witness for C10 at a concrete input: a queued object with a migrator
that always fails still yields a 200 response with the object's clear
metadata. -/
theorem C10_get_migration_error_discarded_witness :
    HandleGet (Except.ok ()) (Except.ok ()) (Except.ok c7obj)
        (fun o => (Except.error (GoError.plain ("boom")), o)) =
      (200, String.mk (render (Jval.obj c7obj.metadata.clearMetadata))) :=
  C10_get_migration_error_discarded c7obj 5 rfl
    (fun o => (Except.error (GoError.plain ("boom")), o))

/-! ## page tokens (C8): URL query escaping, base64, uuid and int64 codecs

All strings here are byte lists (`List Nat`), matching Go's `[]byte`
view of its strings; character literals appear as their ASCII codes
(37 `%`, 38 `&`, 43 `+`, 45 `-`, 47 `/`, 59 `;`, 61 `=`). -/

/-- Bytes never escaped by Go's `url.QueryEscape`: ASCII alphanumerics
and `-`, `_`, `.`, `~`. -/
def isUnreservedQueryByte (b : Nat) : Bool :=
  (65 ≤ b && b ≤ 90) || (97 ≤ b && b ≤ 122) || (48 ≤ b && b ≤ 57) ||
  b == 45 || b == 95 || b == 46 || b == 126

/-- Uppercase hexadecimal digit byte, as `url.QueryEscape` emits after `%`. -/
def hexUpperDigit (n : Nat) : Nat := if n < 10 then 48 + n else 55 + n

/-- `url.QueryEscape`: keep unreserved bytes, turn space into `+`, and
percent-encode everything else with two uppercase hex digits. -/
def queryEscape : List Nat → List Nat
  | [] => []
  | b :: rest =>
    if isUnreservedQueryByte b then b :: queryEscape rest
    else if b = 32 then 43 :: queryEscape rest
    else 37 :: hexUpperDigit (b / 16) :: hexUpperDigit (b % 16) :: queryEscape rest

/-- Value of a single hexadecimal digit byte, either case (Go's `unhex`). -/
def hexDigitVal (b : Nat) : Option Nat :=
  if 48 ≤ b ∧ b ≤ 57 then some (b - 48)
  else if 65 ≤ b ∧ b ≤ 70 then some (b - 55)
  else if 97 ≤ b ∧ b ≤ 102 then some (b - 87)
  else none

mutual

/-- `url.QueryUnescape`: `+` becomes space, `%` must head two hex digits,
other bytes pass through; malformed input is an error. -/
def queryUnescape : List Nat → Option (List Nat)
  | [] => some []
  | b :: rest =>
    if b = 37 then queryUnescapePct rest
    else if b = 43 then (queryUnescape rest).map (fun bs => 32 :: bs)
    else (queryUnescape rest).map (fun bs => b :: bs)

/-- Continuation of `queryUnescape` after a `%`: two hex digits required. -/
def queryUnescapePct : List Nat → Option (List Nat)
  | h :: l :: rest =>
    match hexDigitVal h with
    | some vh =>
      match hexDigitVal l with
      | some vl => (queryUnescape rest).map (fun bs => (vh * 16 + vl) :: bs)
      | none => none
    | none => none
  | _ => none

end

/-- Byte `i` of the standard base64 alphabet `A-Za-z0-9+/`. -/
def b64alphaByte (i : Nat) : Nat :=
  if i < 26 then 65 + i
  else if i < 52 then 97 + (i - 26)
  else if i < 62 then 48 + (i - 52)
  else if i = 62 then 43
  else 47

/-- Inverse of the standard base64 alphabet; `none` for bytes outside it. -/
def b64invByte (b : Nat) : Option Nat :=
  if 65 ≤ b ∧ b ≤ 90 then some (b - 65)
  else if 97 ≤ b ∧ b ≤ 122 then some (26 + (b - 97))
  else if 48 ≤ b ∧ b ≤ 57 then some (52 + (b - 48))
  else if b = 43 then some 62
  else if b = 47 then some 63
  else none

/-- `base64.StdEncoding.EncodeToString`: three input bytes per four output
bytes, `=`-padded final chunk. -/
def b64encode : List Nat → List Nat
  | [] => []
  | [b0] => [b64alphaByte (b0 / 4), b64alphaByte (b0 % 4 * 16), 61, 61]
  | [b0, b1] =>
    [b64alphaByte (b0 / 4), b64alphaByte (b0 % 4 * 16 + b1 / 16),
     b64alphaByte (b1 % 16 * 4), 61]
  | b0 :: b1 :: b2 :: rest =>
    b64alphaByte (b0 / 4) :: b64alphaByte (b0 % 4 * 16 + b1 / 16) ::
    b64alphaByte (b1 % 16 * 4 + b2 / 64) :: b64alphaByte (b2 % 64) ::
    b64encode rest

/-- `base64.StdEncoding.DecodeString`: four-byte chunks, `=`-padding only
at the very end; anything else is an error. -/
def b64decode : List Nat → Option (List Nat)
  | [] => some []
  | c0 :: c1 :: c2 :: c3 :: rest =>
    (b64invByte c0).bind (fun v0 =>
    (b64invByte c1).bind (fun v1 =>
      if c2 = 61 then
        (if c3 = 61 ∧ rest = [] then some [v0 * 4 + v1 / 16] else none)
      else
        (b64invByte c2).bind (fun v2 =>
          if c3 = 61 then
            (if rest = [] then some [v0 * 4 + v1 / 16, v1 % 16 * 16 + v2 / 4]
             else none)
          else
            (b64invByte c3).bind (fun v3 =>
              (b64decode rest).map (fun bs =>
                (v0 * 4 + v1 / 16) :: (v1 % 16 * 16 + v2 / 4) ::
                (v2 % 4 * 64 + v3) :: bs)))))
  | _ => none

/-- Split a query on `&`, as the `strings.Cut` loop of `url.ParseQuery`
does. -/
def splitAmp : List Nat → List (List Nat)
  | [] => [[]]
  | c :: rest =>
    if c = 38 then [] :: splitAmp rest
    else
      match splitAmp rest with
      | [] => [[c]]
      | seg :: segs => (c :: seg) :: segs

/-- `strings.Cut(seg, "=")`: the part before the first `=` and the part
after it (the whole segment and nothing when `=` is absent). -/
def cutEq : List Nat → List Nat × List Nat
  | [] => ([], [])
  | c :: rest =>
    if c = 61 then ([], rest)
    else (c :: (cutEq rest).1, (cutEq rest).2)

/-- Per-segment loop body of `url.ParseQuery`: skip empty segments, reject
segments containing `;`, cut at the first `=` and unescape key and value;
any error anywhere makes the whole parse fail (Go records the error and
the caller rejects the token). -/
def parseQuerySegs : List (List Nat) → Option (List (List Nat × List Nat))
  | [] => some []
  | seg :: rest =>
    if seg = [] then parseQuerySegs rest
    else if 59 ∈ seg then none
    else
      (queryUnescape (cutEq seg).1).bind (fun k =>
      (queryUnescape (cutEq seg).2).bind (fun v =>
      (parseQuerySegs rest).map (fun q => (k, v) :: q)))

/-- `url.ParseQuery` over bytes: split on `&` and process each segment. -/
def parseQuery (s : List Nat) : Option (List (List Nat × List Nat)) :=
  parseQuerySegs (splitAmp s)

/-- `url.Values.Get`: first value recorded for a key, empty when absent. -/
def valuesGet (k : List Nat) : List (List Nat × List Nat) → List Nat
  | [] => []
  | (k2, v) :: rest => if k2 = k then v else valuesGet k rest

/-- Lowercase hexadecimal digit byte, as `uuid.UUID.String` emits. -/
def hexLowerDigit (n : Nat) : Nat := if n < 10 then 48 + n else 87 + n

/-- Lowercase hex rendering of a byte list, two digits per byte. -/
def hexBytesLower : List Nat → List Nat
  | [] => []
  | b :: rest => hexLowerDigit (b / 16) :: hexLowerDigit (b % 16) :: hexBytesLower rest

/-- `uuid.UUID.String`: the sixteen bytes in lowercase hex, dash-grouped
8-4-4-4-12. -/
def uuidString (bs : List Nat) : List Nat :=
  hexBytesLower (bs.take 4) ++ 45 :: hexBytesLower ((bs.drop 4).take 2) ++
  45 :: hexBytesLower ((bs.drop 6).take 2) ++
  45 :: hexBytesLower ((bs.drop 8).take 2) ++
  45 :: hexBytesLower (bs.drop 10)

/-- Parse `n` bytes written as `2n` hex digits, returning them and the rest
of the input. -/
def parseHexPairs : Nat → List Nat → Option (List Nat × List Nat)
  | 0, rest => some ([], rest)
  | n + 1, h :: l :: rest =>
    match hexDigitVal h with
    | some vh =>
      match hexDigitVal l with
      | some vl => (parseHexPairs n rest).map (fun r => ((vh * 16 + vl) :: r.1, r.2))
      | none => none
    | none => none
  | _ + 1, _ => none

/-- Expect a dash byte. -/
def expectDash : List Nat → Option (List Nat)
  | 45 :: rest => some rest
  | _ => none

/-- `uuid.FromString`: the canonical dashed form, hex digits of either
case, nothing before or after. -/
def uuidFromString (s : List Nat) : Option (List Nat) :=
  (parseHexPairs 4 s).bind (fun p1 =>
  (expectDash p1.2).bind (fun r1 =>
  (parseHexPairs 2 r1).bind (fun p2 =>
  (expectDash p2.2).bind (fun r2 =>
  (parseHexPairs 2 r2).bind (fun p3 =>
  (expectDash p3.2).bind (fun r3 =>
  (parseHexPairs 2 r3).bind (fun p4 =>
  (expectDash p4.2).bind (fun r4 =>
  (parseHexPairs 6 r4).bind (fun p5 =>
    if p5.2 = [] then some (p1.1 ++ p2.1 ++ p3.1 ++ p4.1 ++ p5.1)
    else none)))))))))

/-- Decimal digit bytes of a natural number (the `List Char` rendering of
the JSON section, taken as ASCII codes). -/
def decBytes (n : Nat) : List Nat := (natChars n).map (fun c => c.toNat)

/-- `strconv.FormatInt(v, 10)` over bytes. -/
def formatInt64 (v : Int) : List Nat :=
  if v < 0 then 45 :: decBytes v.natAbs else decBytes v.toNat

/-- Digit-run accumulator over bytes (value of `"..."` base 10). -/
def decDigitsVal : Nat → List Nat → Nat
  | a, [] => a
  | a, b :: bs => decDigitsVal (a * 10 + (b - 48)) bs

/-- `strconv.ParseUint` base 10 with an inclusive upper bound: a nonempty
all-digit string whose value does not exceed the bound. -/
def parseUintBounded (mx : Nat) (s : List Nat) : Option Nat :=
  if s = [] then none
  else if s.all (fun b => 48 ≤ b && b ≤ 57) then
    (if decDigitsVal 0 s ≤ mx then some (decDigitsVal 0 s) else none)
  else none

/-- `strconv.ParseInt(s, 10, 64)`: optional sign, digits, 64-bit range
check. -/
def parseInt64 (s : List Nat) : Option Int :=
  match s with
  | [] => none
  | c :: rest =>
    if c = 45 then (parseUintBounded (2 ^ 63) rest).map (fun n : Nat => -(n : Int))
    else if c = 43 then (parseUintBounded (2 ^ 63 - 1) rest).map (fun n : Nat => (n : Int))
    else (parseUintBounded (2 ^ 63 - 1) (c :: rest)).map (fun n : Nat => (n : Int))

/-- ASCII bytes of the literal key `projectID`. -/
def keyProjectID : List Nat := [112, 114, 111, 106, 101, 99, 116, 73, 68]

/-- ASCII bytes of the literal key `bucketName`. -/
def keyBucketName : List Nat := [98, 117, 99, 107, 101, 116, 78, 97, 109, 101]

/-- ASCII bytes of the literal key `objectKey`. -/
def keyObjectKey : List Nat := [111, 98, 106, 101, 99, 116, 75, 101, 121]

/-- ASCII bytes of the literal key `version`. -/
def keyVersion : List Nat := [118, 101, 114, 115, 105, 111, 110]

/-- `url.Values.Encode` for the four page-token fields: keys sorted
(`bucketName`, `objectKey`, `projectID`, `version`), each key and value
query-escaped and joined with `=` and `&`. -/
def encodeQuery (loc : ObjectLocation) : List Nat :=
  queryEscape keyBucketName ++ 61 :: queryEscape loc.bucketName ++
  38 :: queryEscape keyObjectKey ++ 61 :: queryEscape loc.objectKey ++
  38 :: queryEscape keyProjectID ++ 61 :: queryEscape (uuidString loc.projectID) ++
  38 :: queryEscape keyVersion ++ 61 :: queryEscape (formatInt64 loc.version)

/-- `getPageToken` of server.go: the encoded `url.Values` form of the four
identity fields, base64-encoded. -/
def getPageToken (loc : ObjectLocation) : List Nat :=
  b64encode (encodeQuery loc)

/-- `parsePageToken` of server.go: base64-decode, parse the query, then
require a valid `projectID` uuid, nonempty `bucketName` and `objectKey`,
and an int64 `version`; every failure wraps `ErrBadRequest`. -/
def parsePageToken (s : List Nat) : Except GoError ObjectLocation :=
  match b64decode s with
  | none => Except.error (GoError.wrap errBadRequest ("invalid page token"))
  | some qs =>
  match parseQuery qs with
  | none => Except.error (GoError.wrap errBadRequest ("invalid params in page token"))
  | some q =>
  match uuidFromString (valuesGet keyProjectID q) with
  | none => Except.error (GoError.wrap errBadRequest ("invalid projectID in page token"))
  | some pid =>
  if valuesGet keyBucketName q = [] then
    Except.error (GoError.wrap errBadRequest ("invalid bucketName in page token"))
  else if valuesGet keyObjectKey q = [] then
    Except.error (GoError.wrap errBadRequest ("invalid objectKey in page token"))
  else
  match parseInt64 (valuesGet keyVersion q) with
  | none => Except.error (GoError.wrap errBadRequest ("invalid version in page token"))
  | some v =>
    Except.ok ⟨pid, valuesGet keyBucketName q, valuesGet keyObjectKey q, v⟩

/-- Location with an empty bucket name (projectID is sixteen zero bytes,
object key is `k`). -/
def c8loc : ObjectLocation :=
  ⟨[0, 0, 0, 0, 0, 0, 0, 0, 0, 0, 0, 0, 0, 0, 0, 0], [], [107], 0⟩

/-- C8 counterexample: the page token of a location with an empty bucket
name does not parse back to the location — `parsePageToken` rejects it. -/
theorem C8_page_token_counterexample :
    parsePageToken (getPageToken c8loc) =
      Except.error (GoError.wrap errBadRequest ("invalid bucketName in page token"))
    ∧ Except.error (GoError.wrap errBadRequest ("invalid bucketName in page token"))
      ≠ Except.ok c8loc :=
  ⟨rfl, fun h => Except.noConfusion h⟩

lemma obind_some {α β : Type} (a : α) (f : α → Option β) :
    (some a).bind f = f a := rfl

lemma omap_some {α β : Type} (a : α) (f : α → β) :
    (some a).map f = some (f a) := rfl

lemma hexDigitVal_upper : ∀ n < 16, hexDigitVal (hexUpperDigit n) = some n := by decide

lemma hexDigitVal_lower : ∀ n < 16, hexDigitVal (hexLowerDigit n) = some n := by decide

lemma hexUpper_bounds : ∀ n < 16,
    48 ≤ hexUpperDigit n ∧ hexUpperDigit n ≤ 70 ∧
    hexUpperDigit n ≠ 59 ∧ hexUpperDigit n ≠ 61 := by decide

lemma hexLower_bounds : ∀ n < 16, 48 ≤ hexLowerDigit n ∧ hexLowerDigit n ≤ 102 := by decide

lemma b64inv_alpha : ∀ i < 64, b64invByte (b64alphaByte i) = some i := by decide

lemma b64alpha_ne_61 : ∀ i < 64, b64alphaByte i ≠ 61 := by decide

lemma queryEscape_cons (b : Nat) (rest : List Nat) :
    queryEscape (b :: rest) =
      if isUnreservedQueryByte b then b :: queryEscape rest
      else if b = 32 then 43 :: queryEscape rest
      else 37 :: hexUpperDigit (b / 16) :: hexUpperDigit (b % 16) :: queryEscape rest := rfl

lemma queryUnescape_cons (b : Nat) (rest : List Nat) :
    queryUnescape (b :: rest) =
      if b = 37 then queryUnescapePct rest
      else if b = 43 then (queryUnescape rest).map (fun bs => 32 :: bs)
      else (queryUnescape rest).map (fun bs => b :: bs) := rfl

lemma queryUnescapePct_cons2 (h l : Nat) (rest : List Nat) :
    queryUnescapePct (h :: l :: rest) =
      match hexDigitVal h with
      | some vh =>
        match hexDigitVal l with
        | some vl => (queryUnescape rest).map (fun bs => (vh * 16 + vl) :: bs)
        | none => none
      | none => none := rfl

lemma unreserved_facts {b : Nat} (hu : isUnreservedQueryByte b = true) :
    b < 256 ∧ b ≠ 37 ∧ b ≠ 43 ∧ b ≠ 38 ∧ b ≠ 59 ∧ b ≠ 61 ∧ b ≠ 32 := by
  simp only [isUnreservedQueryByte, Bool.or_eq_true, Bool.and_eq_true,
    decide_eq_true_eq, beq_iff_eq] at hu
  omega

/-- Every byte emitted by `queryEscape` on byte input is itself a byte and
is none of `&`, `;`, `=` — the separators of the query syntax. -/
lemma queryEscape_bytes (s : List Nat) (hs : ∀ b ∈ s, b < 256) :
    ∀ c ∈ queryEscape s, c < 256 ∧ c ≠ 38 ∧ c ≠ 59 ∧ c ≠ 61 := by
  induction s with
  | nil => intro c hc; simp [queryEscape] at hc
  | cons b rest ih =>
    have hb : b < 256 := hs b (by simp)
    have ih2 := ih (fun x hx => hs x (by simp [hx]))
    intro c hc
    rw [queryEscape_cons] at hc
    by_cases hu : isUnreservedQueryByte b
    · rw [if_pos hu] at hc
      rcases List.mem_cons.1 hc with hceq | hcr
      · subst hceq
        have := unreserved_facts hu
        exact ⟨this.1, this.2.2.2.1, this.2.2.2.2.1, this.2.2.2.2.2.1⟩
      · exact ih2 c hcr
    · rw [if_neg hu] at hc
      by_cases h32 : b = 32
      · rw [if_pos h32] at hc
        rcases List.mem_cons.1 hc with hceq | hcr
        · subst hceq; omega
        · exact ih2 c hcr
      · rw [if_neg h32] at hc
        have hhi := hexUpper_bounds (b / 16) (by omega)
        have hlo := hexUpper_bounds (b % 16) (by omega)
        rcases List.mem_cons.1 hc with hceq | hc2
        · subst hceq; omega
        rcases List.mem_cons.1 hc2 with hceq | hc3
        · subst hceq; omega
        rcases List.mem_cons.1 hc3 with hceq | hcr
        · subst hceq; omega
        · exact ih2 c hcr

/-- `QueryUnescape` inverts `QueryEscape` on byte input. -/
lemma queryUnescape_queryEscape (s : List Nat) (hs : ∀ b ∈ s, b < 256) :
    queryUnescape (queryEscape s) = some s := by
  induction s with
  | nil => rfl
  | cons b rest ih =>
    have hb : b < 256 := hs b (by simp)
    have ih2 := ih (fun x hx => hs x (by simp [hx]))
    rw [queryEscape_cons]
    by_cases hu : isUnreservedQueryByte b
    · have hf := unreserved_facts hu
      rw [if_pos hu, queryUnescape_cons, if_neg hf.2.1, if_neg hf.2.2.1, ih2, omap_some]
    · rw [if_neg hu]
      by_cases h32 : b = 32
      · rw [if_pos h32, queryUnescape_cons, if_neg (by omega : ¬(43 : Nat) = 37),
          if_pos rfl, ih2, omap_some, h32]
      · rw [if_neg h32, queryUnescape_cons, if_pos rfl, queryUnescapePct_cons2,
          hexDigitVal_upper (b / 16) (by omega), hexDigitVal_upper (b % 16) (by omega),
          ih2]
        show Option.map (fun bs => (b / 16 * 16 + b % 16) :: bs) (some rest) = some (b :: rest)
        rw [omap_some]
        have hbb : b / 16 * 16 + b % 16 = b := by omega
        rw [hbb]

lemma b64decode_cons4 (c0 c1 c2 c3 : Nat) (rest : List Nat) :
    b64decode (c0 :: c1 :: c2 :: c3 :: rest) =
      (b64invByte c0).bind (fun v0 =>
      (b64invByte c1).bind (fun v1 =>
        if c2 = 61 then
          (if c3 = 61 ∧ rest = [] then some [v0 * 4 + v1 / 16] else none)
        else
          (b64invByte c2).bind (fun v2 =>
            if c3 = 61 then
              (if rest = [] then some [v0 * 4 + v1 / 16, v1 % 16 * 16 + v2 / 4]
               else none)
            else
              (b64invByte c3).bind (fun v3 =>
                (b64decode rest).map (fun bs =>
                  (v0 * 4 + v1 / 16) :: (v1 % 16 * 16 + v2 / 4) ::
                  (v2 % 4 * 64 + v3) :: bs))))) := rfl

/-- `b64decode` inverts `b64encode` on byte input (bounded induction on the
length, three bytes at a time). -/
lemma b64_rt : ∀ N : Nat, ∀ l : List Nat, l.length ≤ N → (∀ b ∈ l, b < 256) →
    b64decode (b64encode l) = some l := by
  intro N
  induction N with
  | zero =>
    intro l hl _
    rw [List.length_eq_zero.1 (Nat.le_zero.1 hl)]
    rfl
  | succ N ih =>
    intro l hl hb
    match l with
    | [] => rfl
    | [b0] =>
      have h0 : b0 < 256 := hb b0 (by simp)
      show b64decode [b64alphaByte (b0 / 4), b64alphaByte (b0 % 4 * 16), 61, 61] = _
      rw [b64decode_cons4]
      simp only [b64inv_alpha (b0 / 4) (by omega : b0 / 4 < 64),
        b64inv_alpha (b0 % 4 * 16) (by omega : b0 % 4 * 16 < 64), obind_some]
      simp only [if_true, and_self, and_true, true_and]
      have e0 : b0 / 4 * 4 + b0 % 4 * 16 / 16 = b0 := by omega
      rw [e0]
    | [b0, b1] =>
      have h0 : b0 < 256 := hb b0 (by simp)
      have h1 : b1 < 256 := hb b1 (by simp)
      show b64decode [b64alphaByte (b0 / 4), b64alphaByte (b0 % 4 * 16 + b1 / 16),
        b64alphaByte (b1 % 16 * 4), 61] = _
      rw [b64decode_cons4]
      simp only [b64inv_alpha (b0 / 4) (by omega : b0 / 4 < 64),
        b64inv_alpha (b0 % 4 * 16 + b1 / 16) (by omega : b0 % 4 * 16 + b1 / 16 < 64),
        b64inv_alpha (b1 % 16 * 4) (by omega : b1 % 16 * 4 < 64), obind_some]
      rw [if_neg (b64alpha_ne_61 (b1 % 16 * 4) (by omega))]
      simp only [if_true, and_self, and_true, true_and]
      have e0 : b0 / 4 * 4 + (b0 % 4 * 16 + b1 / 16) / 16 = b0 := by omega
      have e1 : (b0 % 4 * 16 + b1 / 16) % 16 * 16 + b1 % 16 * 4 / 4 = b1 := by omega
      rw [e0, e1]
    | b0 :: b1 :: b2 :: rest =>
      have h0 : b0 < 256 := hb b0 (by simp)
      have h1 : b1 < 256 := hb b1 (by simp)
      have h2 : b2 < 256 := hb b2 (by simp)
      have hrest : b64decode (b64encode rest) = some rest := by
        refine ih rest ?_ (fun x hx => hb x (by simp [hx]))
        have h3 := hl
        simp only [List.length_cons] at h3 ⊢
        omega
      show b64decode (b64alphaByte (b0 / 4) :: b64alphaByte (b0 % 4 * 16 + b1 / 16) ::
        b64alphaByte (b1 % 16 * 4 + b2 / 64) :: b64alphaByte (b2 % 64) ::
        b64encode rest) = _
      rw [b64decode_cons4]
      simp only [b64inv_alpha (b0 / 4) (by omega : b0 / 4 < 64),
        b64inv_alpha (b0 % 4 * 16 + b1 / 16) (by omega : b0 % 4 * 16 + b1 / 16 < 64),
        b64inv_alpha (b1 % 16 * 4 + b2 / 64) (by omega : b1 % 16 * 4 + b2 / 64 < 64),
        b64inv_alpha (b2 % 64) (by omega : b2 % 64 < 64),
        obind_some, hrest, omap_some]
      rw [if_neg (b64alpha_ne_61 (b1 % 16 * 4 + b2 / 64) (by omega)),
        if_neg (b64alpha_ne_61 (b2 % 64) (by omega))]
      have e0 : b0 / 4 * 4 + (b0 % 4 * 16 + b1 / 16) / 16 = b0 := by omega
      have e1 : (b0 % 4 * 16 + b1 / 16) % 16 * 16 + (b1 % 16 * 4 + b2 / 64) / 4 = b1 := by
        omega
      have e2 : (b1 % 16 * 4 + b2 / 64) % 4 * 64 + b2 % 64 = b2 := by omega
      rw [e0, e1, e2]

/-- `base64` round trip at the top level. -/
lemma b64decode_encode (l : List Nat) (h : ∀ b ∈ l, b < 256) :
    b64decode (b64encode l) = some l :=
  b64_rt l.length l le_rfl h

lemma splitAmp_cons (c : Nat) (rest : List Nat) :
    splitAmp (c :: rest) =
      if c = 38 then [] :: splitAmp rest
      else
        match splitAmp rest with
        | [] => [[c]]
        | seg :: segs => (c :: seg) :: segs := rfl

/-- Splitting at the first separator after an `&`-free block. -/
lemma splitAmp_append (s t : List Nat) (h : 38 ∉ s) :
    splitAmp (s ++ 38 :: t) = s :: splitAmp t := by
  induction s with
  | nil =>
    rw [List.nil_append, splitAmp_cons, if_pos rfl]
  | cons c s' ih =>
    have hc : ¬c = 38 := fun hh => h (by simp [hh])
    rw [List.cons_append, splitAmp_cons, if_neg hc, ih (fun hm => h (by simp [hm]))]

/-- A separator-free query is a single segment. -/
lemma splitAmp_nosep (s : List Nat) (h : 38 ∉ s) : splitAmp s = [s] := by
  induction s with
  | nil => rfl
  | cons c s' ih =>
    have hc : ¬c = 38 := fun hh => h (by simp [hh])
    rw [splitAmp_cons, if_neg hc, ih (fun hm => h (by simp [hm]))]

lemma cutEq_cons (c : Nat) (rest : List Nat) :
    cutEq (c :: rest) =
      if c = 61 then ([], rest)
      else (c :: (cutEq rest).1, (cutEq rest).2) := rfl

/-- Cutting at the first `=` after an `=`-free key. -/
lemma cutEq_append (k v : List Nat) (h : 61 ∉ k) : cutEq (k ++ 61 :: v) = (k, v) := by
  induction k with
  | nil => rw [List.nil_append, cutEq_cons, if_pos rfl]
  | cons c k' ih =>
    have hc : ¬c = 61 := fun hh => h (by simp [hh])
    rw [List.cons_append, cutEq_cons, if_neg hc, ih (fun hm => h (by simp [hm]))]

lemma parseQuerySegs_cons (seg : List Nat) (rest : List (List Nat)) :
    parseQuerySegs (seg :: rest) =
      if seg = [] then parseQuerySegs rest
      else if 59 ∈ seg then none
      else
        (queryUnescape (cutEq seg).1).bind (fun k =>
        (queryUnescape (cutEq seg).2).bind (fun v =>
        (parseQuerySegs rest).map (fun q => (k, v) :: q))) := rfl

/-- Processing one well-formed `key=value` segment: the key is a plain
byte list free of `%`, `+`, `=`, `;` (its unescape is itself), the value an
escape of arbitrary bytes. -/
lemma parseQuerySegs_step (k v : List Nat) (rest : List (List Nat))
    (hk61 : 61 ∉ k) (hk59 : 59 ∉ k)
    (hkun : queryUnescape k = some k)
    (hv : ∀ b ∈ v, b < 256) :
    parseQuerySegs ((k ++ 61 :: queryEscape v) :: rest) =
      (parseQuerySegs rest).map (fun q => (k, v) :: q) := by
  have hne : ¬(k ++ 61 :: queryEscape v = []) := by
    simp [List.append_eq_nil]
  have h59 : ¬(59 ∈ k ++ 61 :: queryEscape v) := by
    intro hm
    rcases List.mem_append.1 hm with hm | hm
    · exact hk59 hm
    · rcases List.mem_cons.1 hm with hm | hm
      · omega
      · exact (queryEscape_bytes v hv 59 hm).2.2.1 rfl
  rw [parseQuerySegs_cons, if_neg hne, if_neg h59, cutEq_append k _ hk61]
  show (queryUnescape k).bind (fun k2 =>
      (queryUnescape (queryEscape v)).bind (fun v2 =>
      (parseQuerySegs rest).map (fun q => (k2, v2) :: q))) = _
  rw [hkun, obind_some, queryUnescape_queryEscape v hv, obind_some]

lemma valuesGet_cons (k k2 v : List Nat) (rest : List (List Nat × List Nat)) :
    valuesGet k ((k2, v) :: rest) = if k2 = k then v else valuesGet k rest := rfl

lemma parseHexPairs_zero (rest : List Nat) : parseHexPairs 0 rest = some ([], rest) := rfl

lemma parseHexPairs_succ (n h l : Nat) (rest : List Nat) :
    parseHexPairs (n + 1) (h :: l :: rest) =
      match hexDigitVal h with
      | some vh =>
        match hexDigitVal l with
        | some vl => (parseHexPairs n rest).map (fun r => ((vh * 16 + vl) :: r.1, r.2))
        | none => none
      | none => none := rfl

/-- Parsing back a lowercase hex rendering of `n` bytes. -/
lemma parseHexPairs_rt (g : List Nat) : ∀ (n : Nat) (rest : List Nat),
    g.length = n → (∀ b ∈ g, b < 256) →
    parseHexPairs n (hexBytesLower g ++ rest) = some (g, rest) := by
  induction g with
  | nil =>
    intro n rest hn _
    rw [← hn]
    exact parseHexPairs_zero rest
  | cons b g' ih =>
    intro n rest hn hb256
    have hb : b < 256 := hb256 b (by simp)
    match n, hn with
    | Nat.succ m, hn =>
      have hg : g'.length = m := by simpa using hn
      show parseHexPairs (m + 1)
        (hexLowerDigit (b / 16) :: hexLowerDigit (b % 16) :: (hexBytesLower g' ++ rest)) = _
      rw [parseHexPairs_succ, hexDigitVal_lower (b / 16) (by omega),
        hexDigitVal_lower (b % 16) (by omega),
        ih m rest hg (fun x hx => hb256 x (by simp [hx]))]
      show Option.map (fun r : List Nat × List Nat => ((b / 16 * 16 + b % 16) :: r.1, r.2))
        (some (g', rest)) = _
      rw [omap_some]
      have e0 : b / 16 * 16 + b % 16 = b := by omega
      rw [e0]

lemma expectDash_cons45 (rest : List Nat) : expectDash (45 :: rest) = some rest := rfl

/-- `uuid.FromString` inverts `uuid.UUID.String` on sixteen bytes. -/
lemma uuid_rt (b0 b1 b2 b3 b4 b5 b6 b7 b8 b9 b10 b11 b12 b13 b14 b15 : Nat)
    (h : ∀ x ∈ [b0, b1, b2, b3, b4, b5, b6, b7, b8, b9, b10, b11, b12, b13, b14, b15],
      x < 256) :
    uuidFromString (uuidString
        [b0, b1, b2, b3, b4, b5, b6, b7, b8, b9, b10, b11, b12, b13, b14, b15]) =
      some [b0, b1, b2, b3, b4, b5, b6, b7, b8, b9, b10, b11, b12, b13, b14, b15] := by
  have hg1 : ∀ x ∈ [b0, b1, b2, b3], x < 256 := by
    intro x hx; refine h x ?_; simp only [List.mem_cons] at hx ⊢; tauto
  have hg2 : ∀ x ∈ [b4, b5], x < 256 := by
    intro x hx; refine h x ?_; simp only [List.mem_cons] at hx ⊢; tauto
  have hg3 : ∀ x ∈ [b6, b7], x < 256 := by
    intro x hx; refine h x ?_; simp only [List.mem_cons] at hx ⊢; tauto
  have hg4 : ∀ x ∈ [b8, b9], x < 256 := by
    intro x hx; refine h x ?_; simp only [List.mem_cons] at hx ⊢; tauto
  have hg5 : ∀ x ∈ [b10, b11, b12, b13, b14, b15], x < 256 := by
    intro x hx; refine h x ?_; simp only [List.mem_cons] at hx ⊢; tauto
  have P1 : ∀ r, parseHexPairs 4 (hexBytesLower [b0, b1, b2, b3] ++ r) =
      some ([b0, b1, b2, b3], r) :=
    fun r => parseHexPairs_rt [b0, b1, b2, b3] 4 r rfl hg1
  have P2 : ∀ r, parseHexPairs 2 (hexBytesLower [b4, b5] ++ r) = some ([b4, b5], r) :=
    fun r => parseHexPairs_rt [b4, b5] 2 r rfl hg2
  have P3 : ∀ r, parseHexPairs 2 (hexBytesLower [b6, b7] ++ r) = some ([b6, b7], r) :=
    fun r => parseHexPairs_rt [b6, b7] 2 r rfl hg3
  have P4 : ∀ r, parseHexPairs 2 (hexBytesLower [b8, b9] ++ r) = some ([b8, b9], r) :=
    fun r => parseHexPairs_rt [b8, b9] 2 r rfl hg4
  have P5 : parseHexPairs 6 (hexBytesLower [b10, b11, b12, b13, b14, b15]) =
      some ([b10, b11, b12, b13, b14, b15], []) := by
    have h5 := parseHexPairs_rt [b10, b11, b12, b13, b14, b15] 6 [] rfl hg5
    rwa [List.append_nil] at h5
  show uuidFromString (hexBytesLower [b0, b1, b2, b3] ++ 45 ::
    (hexBytesLower [b4, b5] ++ 45 :: (hexBytesLower [b6, b7] ++ 45 ::
    (hexBytesLower [b8, b9] ++ 45 :: hexBytesLower [b10, b11, b12, b13, b14, b15])))) = _
  simp only [uuidFromString, P1, obind_some, expectDash_cons45, P2, P3, P4, P5]
  simp only [if_true]
  rfl

lemma digit_char_toNat : ∀ n < 10, (Nat.digitChar n).toNat = 48 + n := by decide

/-- Bytes of a decimal rendering are ASCII digits. -/
lemma natChars_toNat_bounds (n : Nat) :
    ∀ c ∈ natChars n, 48 ≤ c.toNat ∧ c.toNat ≤ 57 := by
  induction n using Nat.strong_induction_on with
  | _ n ih =>
    rw [natChars_unfold]
    by_cases h10 : n < 10
    · simp only [h10, if_true, List.mem_singleton]
      intro c hc
      subst hc
      rw [digit_char_toNat n h10]
      omega
    · have hd : n / 10 < n := Nat.div_lt_self (by omega) (by omega)
      simp only [h10, if_false, List.mem_append, List.mem_singleton]
      intro c hc
      rcases hc with hc | hc
      · exact ih (n / 10) hd c hc
      · subst hc
        rw [digit_char_toNat (n % 10) (Nat.mod_lt _ (by omega))]
        omega

lemma decBytes_ne_nil (n : Nat) : decBytes n ≠ [] := by
  intro hh
  exact natChars_ne_nil n (List.map_eq_nil_iff.1 hh)

lemma decBytes_all_digits (n : Nat) :
    (decBytes n).all (fun b => 48 ≤ b && b ≤ 57) = true := by
  rw [List.all_eq_true]
  intro b hb
  rcases List.mem_map.1 hb with ⟨c, hc, hcb⟩
  have := natChars_toNat_bounds n c hc
  subst hcb
  simp only [Bool.and_eq_true, decide_eq_true_eq]
  omega

lemma decDigitsVal_map (l : List Char) : ∀ a : Nat,
    decDigitsVal a (l.map (fun c => c.toNat)) = digitsVal a l := by
  induction l with
  | nil => intro a; rfl
  | cons c cs ih =>
    intro a
    show decDigitsVal (a * 10 + (c.toNat - 48)) (cs.map (fun c => c.toNat)) = _
    rw [ih, digitsVal_cons]
    rfl

lemma decDigitsVal_decBytes (n : Nat) : decDigitsVal 0 (decBytes n) = n := by
  rw [decBytes, decDigitsVal_map]
  have := digitsVal_natChars n 0
  simpa using this

/-- `ParseUint` with bound accepts a decimal rendering within the bound. -/
lemma parseUintBounded_decBytes (mx n : Nat) (h : n ≤ mx) :
    parseUintBounded mx (decBytes n) = some n := by
  rw [parseUintBounded, if_neg (decBytes_ne_nil n), if_pos (decBytes_all_digits n),
    decDigitsVal_decBytes, if_pos h]

lemma parseInt64_cons (c : Nat) (rest : List Nat) :
    parseInt64 (c :: rest) =
      if c = 45 then (parseUintBounded (2 ^ 63) rest).map (fun n : Nat => -(n : Int))
      else if c = 43 then (parseUintBounded (2 ^ 63 - 1) rest).map (fun n : Nat => (n : Int))
      else (parseUintBounded (2 ^ 63 - 1) (c :: rest)).map (fun n : Nat => (n : Int)) := rfl

/-- `strconv.ParseInt` inverts `strconv.FormatInt` on the int64 range. -/
lemma parseInt64_formatInt64 (v : Int) (h1 : -(2 ^ 63) ≤ v) (h2 : v < 2 ^ 63) :
    parseInt64 (formatInt64 v) = some v := by
  by_cases hneg : v < 0
  · rw [formatInt64, if_pos hneg, parseInt64_cons, if_pos rfl,
      parseUintBounded_decBytes (2 ^ 63) v.natAbs (by omega), omap_some]
    have he : -((v.natAbs : Nat) : Int) = v := by omega
    rw [he]
  · obtain ⟨c, cs, hdec⟩ := List.exists_cons_of_ne_nil (decBytes_ne_nil v.toNat)
    have hc : 48 ≤ c ∧ c ≤ 57 := by
      have hall := decBytes_all_digits v.toNat
      rw [hdec, List.all_cons, Bool.and_eq_true] at hall
      simpa using hall.1
    rw [formatInt64, if_neg hneg, hdec, parseInt64_cons,
      if_neg (by omega : ¬c = 45), if_neg (by omega : ¬c = 43), ← hdec,
      parseUintBounded_decBytes (2 ^ 63 - 1) v.toNat (by omega), omap_some]
    have he : ((v.toNat : Nat) : Int) = v := by omega
    rw [he]

lemma hexBytesLower_bytes (l : List Nat) (h : ∀ b ∈ l, b < 256) :
    ∀ c ∈ hexBytesLower l, c < 256 := by
  induction l with
  | nil => intro c hc; simp [hexBytesLower] at hc
  | cons b rest ih =>
    have hb : b < 256 := h b (by simp)
    intro c hc
    rcases List.mem_cons.1 hc with hceq | hc2
    · have := hexLower_bounds (b / 16) (by omega)
      omega
    rcases List.mem_cons.1 hc2 with hceq | hc3
    · have := hexLower_bounds (b % 16) (by omega)
      omega
    · exact ih (fun x hx => h x (by simp [hx])) c hc3

lemma uuidString_bytes (bs : List Nat) (h : ∀ b ∈ bs, b < 256) :
    ∀ c ∈ uuidString bs, c < 256 := by
  intro c hc
  rw [uuidString] at hc
  simp only [List.mem_append, List.mem_cons] at hc
  have h4 := hexBytesLower_bytes (bs.take 4) (fun x hx => h x (List.take_subset _ _ hx))
  have h45 := hexBytesLower_bytes ((bs.drop 4).take 2)
    (fun x hx => h x (List.drop_subset _ _ (List.take_subset _ _ hx)))
  have h67 := hexBytesLower_bytes ((bs.drop 6).take 2)
    (fun x hx => h x (List.drop_subset _ _ (List.take_subset _ _ hx)))
  have h89 := hexBytesLower_bytes ((bs.drop 8).take 2)
    (fun x hx => h x (List.drop_subset _ _ (List.take_subset _ _ hx)))
  have h10 := hexBytesLower_bytes (bs.drop 10) (fun x hx => h x (List.drop_subset _ _ hx))
  rcases hc with (((hc | hc | hc) | hc | hc) | hc | hc) | hc | hc
  · exact h4 c hc
  · omega
  · exact h45 c hc
  · omega
  · exact h67 c hc
  · omega
  · exact h89 c hc
  · omega
  · exact h10 c hc

lemma decBytes_bytes (n : Nat) : ∀ c ∈ decBytes n, c < 256 := by
  intro c hc
  rcases List.mem_map.1 hc with ⟨x, hx, hxc⟩
  have := natChars_toNat_bounds n x hx
  omega

lemma formatInt64_bytes (v : Int) : ∀ c ∈ formatInt64 v, c < 256 := by
  intro c hc
  rw [formatInt64] at hc
  by_cases hneg : v < 0
  · rw [if_pos hneg] at hc
    rcases List.mem_cons.1 hc with hceq | hc2
    · omega
    · exact decBytes_bytes _ c hc2
  · rw [if_neg hneg] at hc
    exact decBytes_bytes _ c hc

lemma queryEscape_keyBucketName : queryEscape keyBucketName = keyBucketName := by decide

lemma queryEscape_keyObjectKey : queryEscape keyObjectKey = keyObjectKey := by decide

lemma queryEscape_keyProjectID : queryEscape keyProjectID = keyProjectID := by decide

lemma queryEscape_keyVersion : queryEscape keyVersion = keyVersion := by decide

/-- A `key=value` segment built from an `&`-free key and an escaped value
holds no separator byte. -/
lemma seg_no_amp (k val : List Nat) (hk : 38 ∉ k) (hv : ∀ b ∈ val, b < 256) :
    38 ∉ k ++ 61 :: queryEscape val := by
  intro hm
  rcases List.mem_append.1 hm with hm | hm
  · exact hk hm
  rcases List.mem_cons.1 hm with hm | hm
  · omega
  · exact (queryEscape_bytes val hv 38 hm).2.1 rfl

/-- All bytes of the encoded query are bytes. -/
lemma encodeQuery_bytes (loc : ObjectLocation)
    (hbn : ∀ b ∈ loc.bucketName, b < 256) (hok : ∀ b ∈ loc.objectKey, b < 256)
    (hpid : ∀ b ∈ loc.projectID, b < 256) :
    ∀ c ∈ encodeQuery loc, c < 256 := by
  have huuidb := uuidString_bytes loc.projectID hpid
  have hfb := formatInt64_bytes loc.version
  intro c hc
  rw [encodeQuery] at hc
  simp only [List.mem_append, List.mem_cons] at hc
  rcases hc with
    ((((((hc | hc | hc) | hc | hc) | hc | hc) | hc | hc) | hc | hc) | hc | hc) | hc | hc
  · exact (queryEscape_bytes keyBucketName (by decide) c hc).1
  · omega
  · exact (queryEscape_bytes loc.bucketName hbn c hc).1
  · omega
  · exact (queryEscape_bytes keyObjectKey (by decide) c hc).1
  · omega
  · exact (queryEscape_bytes loc.objectKey hok c hc).1
  · omega
  · exact (queryEscape_bytes keyProjectID (by decide) c hc).1
  · omega
  · exact (queryEscape_bytes (uuidString loc.projectID) huuidb c hc).1
  · omega
  · exact (queryEscape_bytes keyVersion (by decide) c hc).1
  · omega
  · exact (queryEscape_bytes (formatInt64 loc.version) hfb c hc).1

lemma parseQuerySegs_nil : parseQuerySegs [] = some [] := rfl

/-- Parsing back the encoded query yields the four key/value pairs with
the escaped values restored. -/
lemma encodeQuery_parse (loc : ObjectLocation)
    (hbn : ∀ b ∈ loc.bucketName, b < 256) (hok : ∀ b ∈ loc.objectKey, b < 256)
    (hpid : ∀ b ∈ loc.projectID, b < 256) :
    parseQuery (encodeQuery loc) =
      some [(keyBucketName, loc.bucketName), (keyObjectKey, loc.objectKey),
        (keyProjectID, uuidString loc.projectID),
        (keyVersion, formatInt64 loc.version)] := by
  have huuidb := uuidString_bytes loc.projectID hpid
  have hfb := formatInt64_bytes loc.version
  have hshape : encodeQuery loc =
      (keyBucketName ++ 61 :: queryEscape loc.bucketName) ++ 38 ::
      ((keyObjectKey ++ 61 :: queryEscape loc.objectKey) ++ 38 ::
      ((keyProjectID ++ 61 :: queryEscape (uuidString loc.projectID)) ++ 38 ::
      (keyVersion ++ 61 :: queryEscape (formatInt64 loc.version)))) := by
    rw [encodeQuery, queryEscape_keyBucketName, queryEscape_keyObjectKey,
      queryEscape_keyProjectID, queryEscape_keyVersion]
    simp only [List.append_assoc, List.cons_append]
  rw [parseQuery, hshape,
    splitAmp_append _ _ (seg_no_amp keyBucketName loc.bucketName (by decide) hbn),
    splitAmp_append _ _ (seg_no_amp keyObjectKey loc.objectKey (by decide) hok),
    splitAmp_append _ _ (seg_no_amp keyProjectID _ (by decide) huuidb),
    splitAmp_nosep _ (seg_no_amp keyVersion _ (by decide) hfb),
    parseQuerySegs_step keyBucketName loc.bucketName _ (by decide) (by decide)
      (by decide) hbn,
    parseQuerySegs_step keyObjectKey loc.objectKey _ (by decide) (by decide)
      (by decide) hok,
    parseQuerySegs_step keyProjectID _ _ (by decide) (by decide) (by decide) huuidb,
    parseQuerySegs_step keyVersion _ _ (by decide) (by decide) (by decide) hfb,
    parseQuerySegs_nil]
  simp only [omap_some]

/-- `parsePageToken` on a token whose stages all succeed. -/
lemma parsePageToken_stages (s qs : List Nat) (q : List (List Nat × List Nat))
    (pid : List Nat) (v : Int)
    (h1 : b64decode s = some qs)
    (h2 : parseQuery qs = some q)
    (h3 : uuidFromString (valuesGet keyProjectID q) = some pid)
    (hbne : valuesGet keyBucketName q ≠ [])
    (hone : valuesGet keyObjectKey q ≠ [])
    (h6 : parseInt64 (valuesGet keyVersion q) = some v) :
    parsePageToken s =
      Except.ok ⟨pid, valuesGet keyBucketName q, valuesGet keyObjectKey q, v⟩ := by
  simp only [parsePageToken, h1, h2, h3, h6]
  rw [if_neg hbne, if_neg hone]

/-- C8 (amended): for every location whose `projectID` is sixteen bytes,
whose `bucketName` and `objectKey` are nonempty byte strings and whose
`version` is in the int64 range, parsing the page token produced for the
location returns the location again; the unrestricted claim fails because
`parsePageToken` rejects empty bucket names and object keys. -/
theorem C8_page_token_roundtrip_amended (loc : ObjectLocation)
    (b0 b1 b2 b3 b4 b5 b6 b7 b8 b9 b10 b11 b12 b13 b14 b15 : Nat)
    (hpid16 : loc.projectID =
      [b0, b1, b2, b3, b4, b5, b6, b7, b8, b9, b10, b11, b12, b13, b14, b15])
    (hpid : ∀ x ∈ loc.projectID, x < 256)
    (hbn : ∀ x ∈ loc.bucketName, x < 256) (hbnne : loc.bucketName ≠ [])
    (hok : ∀ x ∈ loc.objectKey, x < 256) (hokne : loc.objectKey ≠ [])
    (hv1 : -(2 ^ 63) ≤ loc.version) (hv2 : loc.version < 2 ^ 63) :
    parsePageToken (getPageToken loc) = Except.ok loc := by
  have h1 : b64decode (getPageToken loc) = some (encodeQuery loc) :=
    b64decode_encode (encodeQuery loc) (encodeQuery_bytes loc hbn hok hpid)
  have h2 := encodeQuery_parse loc hbn hok hpid
  have hgB : valuesGet keyBucketName
      [(keyBucketName, loc.bucketName), (keyObjectKey, loc.objectKey),
        (keyProjectID, uuidString loc.projectID),
        (keyVersion, formatInt64 loc.version)] = loc.bucketName := by
    rw [valuesGet_cons, if_pos rfl]
  have hgO : valuesGet keyObjectKey
      [(keyBucketName, loc.bucketName), (keyObjectKey, loc.objectKey),
        (keyProjectID, uuidString loc.projectID),
        (keyVersion, formatInt64 loc.version)] = loc.objectKey := by
    rw [valuesGet_cons, if_neg (by decide : ¬keyBucketName = keyObjectKey),
      valuesGet_cons, if_pos rfl]
  have hgP : valuesGet keyProjectID
      [(keyBucketName, loc.bucketName), (keyObjectKey, loc.objectKey),
        (keyProjectID, uuidString loc.projectID),
        (keyVersion, formatInt64 loc.version)] = uuidString loc.projectID := by
    rw [valuesGet_cons, if_neg (by decide : ¬keyBucketName = keyProjectID),
      valuesGet_cons, if_neg (by decide : ¬keyObjectKey = keyProjectID),
      valuesGet_cons, if_pos rfl]
  have hgV : valuesGet keyVersion
      [(keyBucketName, loc.bucketName), (keyObjectKey, loc.objectKey),
        (keyProjectID, uuidString loc.projectID),
        (keyVersion, formatInt64 loc.version)] = formatInt64 loc.version := by
    rw [valuesGet_cons, if_neg (by decide : ¬keyBucketName = keyVersion),
      valuesGet_cons, if_neg (by decide : ¬keyObjectKey = keyVersion),
      valuesGet_cons, if_neg (by decide : ¬keyProjectID = keyVersion),
      valuesGet_cons, if_pos rfl]
  have h3 : uuidFromString (valuesGet keyProjectID
      [(keyBucketName, loc.bucketName), (keyObjectKey, loc.objectKey),
        (keyProjectID, uuidString loc.projectID),
        (keyVersion, formatInt64 loc.version)]) = some loc.projectID := by
    rw [hgP, hpid16]
    exact uuid_rt b0 b1 b2 b3 b4 b5 b6 b7 b8 b9 b10 b11 b12 b13 b14 b15 (hpid16 ▸ hpid)
  have h6 : parseInt64 (valuesGet keyVersion
      [(keyBucketName, loc.bucketName), (keyObjectKey, loc.objectKey),
        (keyProjectID, uuidString loc.projectID),
        (keyVersion, formatInt64 loc.version)]) = some loc.version := by
    rw [hgV]
    exact parseInt64_formatInt64 loc.version hv1 hv2
  have hmain := parsePageToken_stages (getPageToken loc) (encodeQuery loc) _
    loc.projectID loc.version h1 h2 h3
    (by rw [hgB]; exact hbnne) (by rw [hgO]; exact hokne) h6
  rw [hgB, hgO] at hmain
  exact hmain

/-- Witness for the amended C8 at a concrete location. -/
theorem C8_page_token_roundtrip_amended_witness :
    parsePageToken (getPageToken
        ⟨[0, 1, 2, 3, 4, 5, 6, 7, 8, 9, 10, 11, 12, 13, 14, 255],
          [98, 32, 255], [107, 47], -42⟩) =
      Except.ok ⟨[0, 1, 2, 3, 4, 5, 6, 7, 8, 9, 10, 11, 12, 13, 14, 255],
        [98, 32, 255], [107, 47], -42⟩ :=
  C8_page_token_roundtrip_amended
    ⟨[0, 1, 2, 3, 4, 5, 6, 7, 8, 9, 10, 11, 12, 13, 14, 255],
      [98, 32, 255], [107, 47], -42⟩
    0 1 2 3 4 5 6 7 8 9 10 11 12 13 14 255 rfl
    (by decide) (by decide) (by decide) (by decide) (by decide)
    (by decide) (by decide)
